import Mathlib

/-
Verification of the survey submission/scoring core of the survey_project
repository (survey_api/models.py, services.py, views.py, serializers.py).

The relational store is embedded shallowly: one Lean list per table, list
order standing for database row order.  Django queryset operations become
List.find? / List.filter, timestamps are abstract Nat clock values passed
in as a `now` parameter, and each HTTP/exception outcome becomes a
constructor of an explicit outcome type.
-/

namespace Survey

/-- models.py College: root tenant, unique name. -/
structure College where
  id : Nat
  name : String
deriving DecidableEq, Repr

/-- models.py Category: belongs to a college, carries the scoring flag. -/
structure Category where
  id : Nat
  college_id : Nat
  name : String
  has_correct_answers : Bool
deriving DecidableEq, Repr

/-- models.py Section: belongs to a category; optional subjective option template
(SET_NULL foreign key, hence `Option Nat`). -/
structure Section where
  id : Nat
  category_id : Nat
  name : String
  subjective_option_template_id : Option Nat
deriving DecidableEq, Repr

/-- models.py SubjectiveOption: one answer string of a reusable template. -/
structure SubjectiveOption where
  id : Nat
  template_id : Nat
  text : String
deriving DecidableEq, Repr

/-- models.py Question. -/
structure Question where
  id : Nat
  section_id : Nat
  text : String
deriving DecidableEq, Repr

/-- models.py Option: called AnswerOption here because `Option` is taken by Lean. -/
structure AnswerOption where
  id : Nat
  question_id : Nat
  text : String
  is_correct : Bool
deriving DecidableEq, Repr

/-- models.py Student: `id` is the database primary key, `student_id` the
college-scoped external identifier. -/
structure Student where
  id : Nat
  college_id : Nat
  student_id : String
  name : String
deriving DecidableEq, Repr

/-- models.py StudentResponse: `submitted_at` is an abstract clock value. -/
structure StudentResponse where
  student_id : Nat
  question_id : Nat
  selected_option_id : Nat
  submitted_at : Nat
deriving DecidableEq, Repr

/-- models.py StudentSectionResult. -/
structure StudentSectionResult where
  student_id : Nat
  section_id : Nat
  total_marks : Nat
deriving DecidableEq, Repr

/-- The relational store: one list per table, list order models database order. -/
structure Store where
  colleges : List College
  categories : List Category
  sections : List Section
  subjectiveOptions : List SubjectiveOption
  questions : List Question
  options : List AnswerOption
  students : List Student
  responses : List StudentResponse
  sectionResults : List StudentSectionResult
deriving DecidableEq, Repr

/-- Primary-key lookup in the Category table. -/
def findCategory (st : Store) (i : Nat) : Option Category :=
  st.categories.find? (fun c => c.id == i)

/-- Primary-key lookup in the Section table. -/
def findSection (st : Store) (i : Nat) : Option Section :=
  st.sections.find? (fun s => s.id == i)

/-- The `section__category__college=college` join condition on a question row.
A dangling foreign key (impossible under referential integrity) fails the join. -/
def questionInCollege (st : Store) (collegeId : Nat) (q : Question) : Bool :=
  match findSection st q.section_id with
  | some s =>
    match findCategory st s.category_id with
    | some c => c.college_id == collegeId
    | none => false
  | none => false

/-- `Question.objects.filter(id__in=..., section__category__college=college)`
restricted to a single id: questions resolve only inside the caller's college. -/
def resolveQuestion (st : Store) (collegeId : Nat) (qid : Nat) : Option Question :=
  st.questions.find? (fun q => q.id == qid && questionInCollege st collegeId q)

/-- `Option.objects.filter(id__in=...)` restricted to a single id: existence
only, not college-scoped (both in services.py and views.py). -/
def resolveOption (st : Store) (oid : Nat) : Option AnswerOption :=
  st.options.find? (fun o => o.id == oid)

/-- Case-insensitive string comparison, character by character, as `__iexact`
compares (spelled on the character list so that it evaluates inside the kernel). -/
def iexactEq (a b : String) : Bool :=
  a.data.map Char.toLower == b.data.map Char.toLower

/-- `get_object_or_404(College, name__iexact=college_name)`. -/
def resolveCollege (st : Store) (name : String) : Option College :=
  st.colleges.find? (fun c => iexactEq c.name name)

/-- `get_object_or_404(Student, student_id=student_id, college=college)`. -/
def resolveStudent (st : Store) (college : College) (studentId : String) : Option Student :=
  st.students.find? (fun s => s.student_id == studentId && s.college_id == college.id)

/-- `question.section.category.has_correct_answers` as read in the submission loop. -/
def categoryScored (st : Store) (q : Question) : Bool :=
  match findSection st q.section_id with
  | some s =>
    match findCategory st s.category_id with
    | some c => c.has_correct_answers
    | none => false
  | none => false

/-- Is the section, through its category, owned by the given college? -/
def sectionInCollege (st : Store) (collegeId sid : Nat) : Bool :=
  match findSection st sid with
  | some s =>
    match findCategory st s.category_id with
    | some c => c.college_id == collegeId
    | none => false
  | none => false

/-- One element of the submission body: `{question_id, selected_option_id}`. -/
structure ResponseItem where
  question_id : Nat
  selected_option_id : Nat
deriving DecidableEq, Repr

/-- The error taxonomy of the submission path: 404 NotFound, the serializer's
empty-batch rejection, the accumulated missing-id ValidationError, the
cross-question option ValidationError/ValueError, the IntegrityError mapped
to 409 Conflict, and an unreachable internal marker. -/
inductive SubmitError where
  | notFound
  | emptyBatch
  | missingIds (missing_questions : List Nat) (missing_options : List Nat)
  | optionMismatch (option_id : Nat) (question_id : Nat)
  | conflict
  | internal
deriving DecidableEq, Repr

/-- Result of a submission: `(created_count, updated_count)` on success. -/
inductive SubmitOutcome where
  | ok (created : Nat) (updated : Nat)
  | error (e : SubmitError)
deriving DecidableEq, Repr

/-- `{r['question_id'] for r in responses_data}` (a Python set; only membership
matters downstream, duplicates removed). -/
def questionIds (items : List ResponseItem) : List Nat :=
  (items.map (fun r => r.question_id)).dedup

/-- `{r['selected_option_id'] for r in responses_data}`. -/
def optionIds (items : List ResponseItem) : List Nat :=
  (items.map (fun r => r.selected_option_id)).dedup

/-- `question_ids - set(questions_map.keys())`: ids that did not resolve in the
college-scoped question query. -/
def missingQuestions (st : Store) (college : College) (items : List ResponseItem) : List Nat :=
  (questionIds items).filter (fun qid => (resolveQuestion st college.id qid).isNone)

/-- `option_ids - set(options_map.keys())`. -/
def missingOptions (st : Store) (items : List ResponseItem) : List Nat :=
  (optionIds items).filter (fun oid => (resolveOption st oid).isNone)

/-- Insert-or-overwrite into an association list keyed by question id; models a
Python dict assignment. -/
def emapInsert (m : List (Nat × StudentResponse)) (k : Nat) (v : StudentResponse) :
    List (Nat × StudentResponse) :=
  match m with
  | [] => [(k, v)]
  | p :: rest => if p.1 = k then (k, v) :: rest else p :: emapInsert rest k v

/-- Dict lookup by question id. -/
def emapLookup (m : List (Nat × StudentResponse)) (k : Nat) : Option StudentResponse :=
  (m.find? (fun p => p.1 == k)).map (fun p => p.2)

/-- `{resp.question_id: resp for resp in existing_responses}` (later rows win,
as in a Python dict comprehension). -/
def buildEmap (rows : List StudentResponse) : List (Nat × StudentResponse) :=
  rows.foldl (fun m r => emapInsert m r.question_id r) []

/-- The last row of the list carrying the given question id, if any: the value
a dict comprehension keyed on question id retains. -/
def lastResp : List StudentResponse → Nat → Option StudentResponse
  | [], _ => none
  | r :: rows, k =>
    match lastResp rows k with
    | some r2 => some r2
    | none => if r.question_id = k then some r else none

/-- `StudentResponse.objects.filter(student=student, question_id__in=question_ids)`. -/
def existingRows (st : Store) (studentPk : Nat) (items : List ResponseItem) : List StudentResponse :=
  st.responses.filter (fun r => r.student_id == studentPk && (questionIds items).contains r.question_id)

/-- The `existing_responses_map` the loop starts from. -/
def initialEmap (st : Store) (studentPk : Nat) (items : List ResponseItem) : List (Nat × StudentResponse) :=
  buildEmap (existingRows st studentPk items)

/-- The StudentResponse object built in the create branch of the loop
(`submitted_at` takes the model default, the current time). -/
def newResponse (studentPk qid oid now : Nat) : StudentResponse :=
  { student_id := studentPk, question_id := qid, selected_option_id := oid, submitted_at := now }

/-- Mutable state of the reconciliation loop: `responses_to_create`,
`responses_to_update` (as the question ids of the appended objects, since the
objects are shared with the map), `objective_sections_touched` (insertion-order
set), and the in-memory `existing_responses_map` whose entries the update
branch mutates. -/
structure PlanState where
  creates : List StudentResponse
  updates : List Nat
  touched : List Nat
  emap : List (Nat × StudentResponse)
deriving DecidableEq, Repr

/-- `set.add` keeping insertion order. -/
def addTouched (l : List Nat) (sid : Nat) : List Nat :=
  if sid ∈ l then l else l ++ [sid]

/-- Body of the reconciliation loop for one already-resolved item: decide
update vs create vs no-op against the in-memory `existing_responses_map`
(mutating the entry on update), then track the section when the question's
category is scored. -/
def stepItem (st : Store) (student : Student) (now : Nat) (item : ResponseItem) (q : Question)
    (ps : PlanState) : PlanState :=
  let ps1 :=
    match emapLookup ps.emap item.question_id with
    | some r =>
      if r.selected_option_id ≠ item.selected_option_id then
        { ps with
          emap := emapInsert ps.emap item.question_id
            { r with selected_option_id := item.selected_option_id, submitted_at := now },
          updates := ps.updates ++ [item.question_id] }
      else ps
    | none =>
      { ps with creates := ps.creates ++
          [newResponse student.id item.question_id item.selected_option_id now] }
  if categoryScored st q then { ps1 with touched := addTouched ps1.touched q.section_id }
  else ps1

/-- The per-item reconciliation loop, written identically in
services.py (process_submission, the `for r_data in self.responses_data` loop)
and views.py (submit_responses, the `for r_data in responses_data` loop); the
only difference between the two sources is how the cross-question mismatch is
reported (ValueError vs a 400 response), which both map to `optionMismatch`.
The `.internal` branch models the impossible KeyError after validation. -/
def processItems (st : Store) (collegeId : Nat) (student : Student) (now : Nat) :
    List ResponseItem → PlanState → Except SubmitError PlanState
  | [], ps => .ok ps
  | item :: rest, ps =>
    match resolveQuestion st collegeId item.question_id, resolveOption st item.selected_option_id with
    | some q, some o =>
      if o.question_id ≠ item.question_id then
        .error (.optionMismatch item.selected_option_id item.question_id)
      else
        processItems st collegeId student now rest (stepItem st student now item q ps)
    | _, _ => .error .internal

/-- Write the mutated fields of one updated response object back to its row. -/
def applyOneUpdate (rows : List StudentResponse) (studentPk qid newOid newTime : Nat) :
    List StudentResponse :=
  rows.map (fun row =>
    if row.student_id == studentPk && row.question_id == qid then
      { row with selected_option_id := newOid, submitted_at := newTime }
    else row)

/-- `bulk_update(responses_to_update, ['selected_option_id', 'submitted_at'])`:
each appended object carries its final in-memory field values (found in the map). -/
def applyPlanUpdates : List StudentResponse → Nat → List (Nat × StudentResponse) → List Nat →
    List StudentResponse
  | rows, _, _, [] => rows
  | rows, studentPk, emap, qid :: rest =>
    applyPlanUpdates
      (match emapLookup emap qid with
       | some r => applyOneUpdate rows studentPk qid r.selected_option_id r.submitted_at
       | none => rows) studentPk emap rest

/-- Does some row already hold the unique `(student, question)` key? -/
def hasResponseKey (rows : List StudentResponse) (studentPk qid : Nat) : Bool :=
  rows.any (fun r => r.student_id == studentPk && r.question_id == qid)

/-- `bulk_create(responses_to_create)` under the `(student, question)` unique
constraint: `none` models the IntegrityError (transaction rollback). -/
def tryBulkCreate (rows : List StudentResponse) : List StudentResponse → Option (List StudentResponse)
  | [] => some rows
  | c :: rest =>
    if hasResponseKey rows c.student_id c.question_id then none
    else tryBulkCreate (rows ++ [c]) rest

/-- Section of a response's question, through the question foreign key. -/
def questionSection (st : Store) (qid : Nat) : Option Nat :=
  (st.questions.find? (fun q => q.id == qid)).map (fun q => q.section_id)

/-- `selected_option__is_correct=True` join condition. -/
def optionIsCorrect (st : Store) (oid : Nat) : Bool :=
  match resolveOption st oid with
  | some o => o.is_correct
  | none => false

/-- The count both scoring paths aggregate: the student's responses whose
question lies in the section and whose selected option is correct. -/
def scoreOf (st : Store) (studentPk sid : Nat) : Nat :=
  (st.responses.filter (fun r =>
    r.student_id == studentPk && questionSection st r.question_id == some sid &&
      optionIsCorrect st r.selected_option_id)).length

/-- Lookup of a stored (student, section) result row's marks. -/
def findMarks (rs : List StudentSectionResult) (studentPk sid : Nat) : Option Nat :=
  (rs.find? (fun r => r.student_id == studentPk && r.section_id == sid)).map
    (fun r => r.total_marks)

/-- The stored StudentSectionResult score for a (student, section) pair. -/
def lookupResult (st : Store) (studentPk sid : Nat) : Option Nat :=
  findMarks st.sectionResults studentPk sid

/-- `StudentSectionResult.objects.update_or_create(student=.., section_id=..,
defaults={'total_marks': score})`. -/
def upsertResult : List StudentSectionResult → Nat → Nat → Nat → List StudentSectionResult
  | [], studentPk, sid, score => [{ student_id := studentPk, section_id := sid, total_marks := score }]
  | r :: rest, studentPk, sid, score =>
    if r.student_id = studentPk ∧ r.section_id = sid then
      { r with total_marks := score } :: rest
    else
      r :: upsertResult rest studentPk sid score

/-- Upsert one result row per section id, scores given by `f`. -/
def applyUpserts : List StudentSectionResult → Nat → List Nat → (Nat → Nat) → List StudentSectionResult
  | rs, _, [], _ => rs
  | rs, studentPk, sid :: rest, f => applyUpserts (upsertResult rs studentPk sid (f sid)) studentPk rest f

/-- services.py `_recalculate_marks`: one aggregate read over the already
written response table (`scores_map`, absent group = 0), then one upsert per
touched section. -/
def recalcMarksService (st : Store) (studentPk : Nat) (sids : List Nat) : Store :=
  { st with sectionResults :=
      applyUpserts st.sectionResults studentPk sids (fun sid => scoreOf st studentPk sid) }

/-- views.py rescoring loop: one `.count()` query and one upsert per touched
section, inside the loop. -/
def recalcMarksView : Store → Nat → List Nat → Store
  | st, _, [] => st
  | st, studentPk, sid :: rest =>
    recalcMarksView
      { st with sectionResults :=
          upsertResult st.sectionResults studentPk sid (scoreOf st studentPk sid) }
      studentPk rest

/-- services.py SurveySubmissionService.process_submission: resolve context,
bulk-resolve ids, validate completeness, reconcile, then the atomic write phase
(bulk_update, bulk_create, rescoring); any IntegrityError rolls the whole
transaction back. -/
def process_submission (st : Store) (college_name student_id : String)
    (responses_data : List ResponseItem) (now : Nat) : SubmitOutcome × Store :=
  match resolveCollege st college_name with
  | none => (.error .notFound, st)
  | some college =>
    match resolveStudent st college student_id with
    | none => (.error .notFound, st)
    | some student =>
      if missingQuestions st college responses_data ≠ [] ∨ missingOptions st responses_data ≠ [] then
        (.error (.missingIds (missingQuestions st college responses_data)
                             (missingOptions st responses_data)), st)
      else
        match processItems st college.id student now responses_data
            { creates := [], updates := [], touched := [],
              emap := initialEmap st student.id responses_data } with
        | .error e => (.error e, st)
        | .ok ps =>
          match tryBulkCreate (applyPlanUpdates st.responses student.id ps.emap ps.updates)
              ps.creates with
          | none => (.error .conflict, st)
          | some rows2 =>
            (.ok ps.creates.length ps.updates.length,
             recalcMarksService { st with responses := rows2 } student.id ps.touched)

/-- views.py submit_responses: the SubmissionSerializer guard
(`responses = ResponseItemSerializer(many=True, allow_empty=False)`) rejects an
empty batch before anything is resolved; then the inline pipeline, identical to
the service except that rescoring counts per section inside the loop. -/
def submit_responses (st : Store) (college_name student_id : String)
    (responses_data : List ResponseItem) (now : Nat) : SubmitOutcome × Store :=
  if responses_data.isEmpty then (.error .emptyBatch, st)
  else
    match resolveCollege st college_name with
    | none => (.error .notFound, st)
    | some college =>
      match resolveStudent st college student_id with
      | none => (.error .notFound, st)
      | some student =>
        if missingQuestions st college responses_data ≠ [] ∨ missingOptions st responses_data ≠ [] then
          (.error (.missingIds (missingQuestions st college responses_data)
                               (missingOptions st responses_data)), st)
        else
          match processItems st college.id student now responses_data
              { creates := [], updates := [], touched := [],
                emap := initialEmap st student.id responses_data } with
          | .error e => (.error e, st)
          | .ok ps =>
            match tryBulkCreate (applyPlanUpdates st.responses student.id ps.emap ps.updates)
                ps.creates with
            | none => (.error .conflict, st)
            | some rows2 =>
              (.ok ps.creates.length ps.updates.length,
               recalcMarksView { st with responses := rows2 } student.id ps.touched)

/-- One entry of the marks branch of get_student_results:
`{"section": .., "result_type": "marks", "total_mark": .., "student_score": ..}`. -/
structure ObjectiveEntry where
  section_name : String
  total_mark : Nat
  student_score : Nat
deriving DecidableEq, Repr

/-- One `{question, selected_option}` pair of a subjective section entry. -/
structure SubjectiveItem where
  question_text : String
  selected_option_text : String
deriving DecidableEq, Repr

/-- One entry of the subjective branch of get_student_results. -/
structure SubjectiveEntry where
  section_name : String
  responses : List SubjectiveItem
deriving DecidableEq, Repr

/-- One value of `results_by_category`: the objective and subjective entry lists
that the final response concatenates per category. -/
structure CategoryGroup where
  category : String
  objective : List ObjectiveEntry
  subjective : List SubjectiveEntry
deriving DecidableEq, Repr

/-- The `final_response` payload of get_student_results. -/
structure ResultsPayload where
  student_name : String
  student_id : String
  results : List CategoryGroup
deriving DecidableEq, Repr

/-- `result.section.name` attribute access. -/
def sectionName (st : Store) (sid : Nat) : String :=
  match findSection st sid with
  | some s => s.name
  | none => ""

/-- `result.section.category.name` attribute access. -/
def categoryNameOfSection (st : Store) (sid : Nat) : String :=
  match findSection st sid with
  | some s =>
    match findCategory st s.category_id with
    | some c => c.name
    | none => ""
  | none => ""

/-- `annotate(total_section_questions=Count('section__questions'))`. -/
def sectionQuestionCount (st : Store) (sid : Nat) : Nat :=
  (st.questions.filter (fun q => q.section_id == sid)).length

/-- `response.question.text`. -/
def questionText (st : Store) (qid : Nat) : String :=
  match st.questions.find? (fun q => q.id == qid) with
  | some q => q.text
  | none => ""

/-- `response.selected_option.text`. -/
def optionText (st : Store) (oid : Nat) : String :=
  match resolveOption st oid with
  | some o => o.text
  | none => ""

/-- `question__section__category__has_correct_answers=False` join condition on
a response row (an inner join: a dangling chain excludes the row). -/
def questionSubjective (st : Store) (qid : Nat) : Bool :=
  match st.questions.find? (fun q => q.id == qid) with
  | some q =>
    match findSection st q.section_id with
    | some s =>
      match findCategory st s.category_id with
      | some c => !c.has_correct_answers
      | none => false
    | none => false
  | none => false

/-- The dictionary built from one StudentSectionResult row. -/
def objectiveEntryOf (st : Store) (r : StudentSectionResult) : ObjectiveEntry :=
  { section_name := sectionName st r.section_id,
    total_mark := sectionQuestionCount st r.section_id,
    student_score := r.total_marks }

/-- `StudentSectionResult.objects.filter(student=student)`. -/
def marksRows (st : Store) (studentPk : Nat) : List StudentSectionResult :=
  st.sectionResults.filter (fun r => r.student_id == studentPk)

/-- `StudentResponse.objects.filter(student=student,
question__section__category__has_correct_answers=False)`. -/
def subjRows (st : Store) (studentPk : Nat) : List StudentResponse :=
  st.responses.filter (fun r => r.student_id == studentPk && questionSubjective st r.question_id)

/-- The `(category name, section name)` key of a subjective response. -/
def subjPairOf (st : Store) (r : StudentResponse) : String × String :=
  match st.questions.find? (fun q => q.id == r.question_id) with
  | some q => (categoryNameOfSection st q.section_id, sectionName st q.section_id)
  | none => ("", "")

/-- The `{"question": .., "selected_option": ..}` dictionary of one response. -/
def subjItemOf (st : Store) (r : StudentResponse) : SubjectiveItem :=
  { question_text := questionText st r.question_id,
    selected_option_text := optionText st r.selected_option_id }

/-- `responses_by_section_and_category[(cat, sec)].append(item)` on a defaultdict
that keeps insertion order. -/
def groupAppend (acc : List ((String × String) × List SubjectiveItem)) (k : String × String)
    (it : SubjectiveItem) : List ((String × String) × List SubjectiveItem) :=
  match acc with
  | [] => [(k, [it])]
  | p :: rest => if p.1 = k then (p.1, p.2 ++ [it]) :: rest else p :: groupAppend rest k it

/-- The grouping loop over the student's subjective responses. -/
def buildSubjGroups (st : Store) (rows : List StudentResponse) :
    List ((String × String) × List SubjectiveItem) :=
  rows.foldl (fun acc r => groupAppend acc (subjPairOf st r) (subjItemOf st r)) []

/-- `results_by_category[category_name]["objective"].append(e)` on the
insertion-ordered defaultdict. -/
def addObjective (acc : List CategoryGroup) (cat : String) (e : ObjectiveEntry) :
    List CategoryGroup :=
  match acc with
  | [] => [{ category := cat, objective := [e], subjective := [] }]
  | g :: rest =>
    if g.category = cat then { g with objective := g.objective ++ [e] } :: rest
    else g :: addObjective rest cat e

/-- `results_by_category[category_name]["subjective"].append(e)`. -/
def addSubjective (acc : List CategoryGroup) (cat : String) (e : SubjectiveEntry) :
    List CategoryGroup :=
  match acc with
  | [] => [{ category := cat, objective := [], subjective := [e] }]
  | g :: rest =>
    if g.category = cat then { g with subjective := g.subjective ++ [e] } :: rest
    else g :: addSubjective rest cat e

/-- views.py get_student_results: resolve college and student, fold the
student's StudentSectionResult rows into objective entries grouped by category
name, fold the grouped subjective responses into subjective entries, and emit
the groups in defaultdict insertion order with objective before subjective. -/
def get_student_results (st : Store) (college_name student_id : String) : Option ResultsPayload :=
  match resolveCollege st college_name with
  | none => none
  | some college =>
    match resolveStudent st college student_id with
    | none => none
    | some student =>
      let acc1 := (marksRows st student.id).foldl
        (fun acc r => addObjective acc (categoryNameOfSection st r.section_id) (objectiveEntryOf st r)) []
      let acc2 := (buildSubjGroups st (subjRows st student.id)).foldl
        (fun acc p => addSubjective acc p.1.1 { section_name := p.1.2, responses := p.2 }) acc1
      some { student_name := student.name, student_id := student.student_id, results := acc2 }

/-- models.py create_default_options, the post_save receiver on Question:
when a question is newly created (`created=True`) under a non-scored category
whose section references a template holding at least one SubjectiveOption,
bulk-create one Option per SubjectiveOption with the template's text and the
default `is_correct=False`; otherwise do nothing.  New options get consecutive
primary keys starting at `nextOptionId`.  The dangling-foreign-key branches
(`none` on section/category) cannot occur under referential integrity. -/
def create_default_options (st : Store) (instQ : Question) (created : Bool)
    (nextOptionId : Nat) : Store :=
  if created then
    match findSection st instQ.section_id with
    | none => st
    | some s =>
      match findCategory st s.category_id with
      | none => st
      | some c =>
        if c.has_correct_answers then st
        else
          match s.subjective_option_template_id with
          | none => st
          | some tid =>
            let topts := st.subjectiveOptions.filter (fun o => o.template_id == tid)
            if topts.isEmpty then st
            else
              { st with options := st.options ++
                  topts.enum.map (fun p =>
                    { id := nextOptionId + p.1, question_id := instQ.id,
                      text := p.2.text, is_correct := false }) }
  else st

/-- Creating a question: insert the row, then fire the post_save receiver with
`created=True`. -/
def create_question (st : Store) (qid sectionId : Nat) (text : String)
    (nextOptionId : Nat) : Store :=
  let q : Question := { id := qid, section_id := sectionId, text := text }
  create_default_options { st with questions := st.questions ++ [q] } q true nextOptionId

/-- Saving an existing question again (an update): rewrite the row, then fire
the post_save receiver with `created=False`. -/
def update_question_text (st : Store) (qid : Nat) (text : String)
    (nextOptionId : Nat) : Store :=
  let qs := st.questions.map (fun q => if q.id == qid then { q with text := text } else q)
  let st1 := { st with questions := qs }
  match st1.questions.find? (fun q => q.id == qid) with
  | some q => create_default_options st1 q false nextOptionId
  | none => st1

/-- A small concrete store used to evaluate the pipelines: one college, a
scored category with a two-question section, and a subjective category whose
section uses a two-entry template. -/
def storeA : Store :=
  { colleges := [⟨1, "Test U"⟩],
    categories := [⟨1, 1, "Aptitude", true⟩, ⟨2, 1, "Feedback", false⟩],
    sections := [⟨1, 1, "Math", none⟩, ⟨2, 2, "Campus", some 1⟩],
    subjectiveOptions := [⟨1, 1, "Agree"⟩, ⟨2, 1, "Disagree"⟩],
    questions := [⟨1, 1, "Q1"⟩, ⟨2, 1, "Q2"⟩, ⟨3, 2, "Q3"⟩],
    options := [⟨1, 1, "a", true⟩, ⟨2, 1, "b", false⟩, ⟨3, 2, "c", true⟩, ⟨4, 2, "d", false⟩,
                ⟨5, 3, "Agree", false⟩, ⟨6, 3, "Disagree", false⟩],
    students := [⟨1, 1, "S-1", "Alice"⟩],
    responses := [],
    sectionResults := [] }

/-- storeA after the student already answered question 1 with option 1. -/
def storeB : Store :=
  { storeA with
    responses := [⟨1, 1, 1, 5⟩],
    sectionResults := [⟨1, 1, 1⟩] }

/-- storeA with a second college and a question belonging to it, for the
cross-college tests. -/
def storeC : Store :=
  { storeA with
    colleges := [⟨1, "Test U"⟩, ⟨2, "Other U"⟩],
    categories := storeA.categories ++ [⟨3, 2, "OtherCat", true⟩],
    sections := storeA.sections ++ [⟨3, 3, "OtherSec", none⟩],
    questions := storeA.questions ++ [⟨9, 3, "Q9"⟩],
    options := storeA.options ++ [⟨9, 9, "x", true⟩] }

/-- storeA with stored answers and a stored section result, exercising the
result assembler: a scored answer pair in section 1 and a subjective answer in
section 2. -/
def storeD : Store :=
  { storeA with
    responses := [⟨1, 1, 1, 10⟩, ⟨1, 2, 4, 10⟩, ⟨1, 3, 5, 13⟩],
    sectionResults := [⟨1, 1, 1⟩] }

/-- The expected results payload of storeD's student, used as the concrete
witness value for the result assembler. -/
def payloadD : ResultsPayload :=
  ⟨"Alice", "S-1",
    [⟨"Aptitude", [⟨"Math", 2, 1⟩], []⟩,
     ⟨"Feedback", [], [⟨"Campus", [⟨"Q3", "Agree"⟩]⟩]⟩]⟩

/-- All objective entries of a results payload, across its category groups. -/
def allObjective (out : List CategoryGroup) : List ObjectiveEntry :=
  out.flatMap (fun g => g.objective)

/-- All (category, section) keys of subjective entries of a results payload. -/
def allSubjKeys (out : List CategoryGroup) : List (String × String) :=
  out.flatMap (fun g => g.subjective.map (fun e => (g.category, e.section_name)))

/-- Fields of the store other than responses and section results are never
written by a submission: recomputing a score after swapping the section-result
table reads the same responses, questions and options. -/
theorem scoreOf_set_sectionResults (st : Store) (rs : List StudentSectionResult) (stu sid : Nat) :
    scoreOf { st with sectionResults := rs } stu sid = scoreOf st stu sid := rfl

/-- Inserting question rows leaves section lookups unchanged. -/
theorem findSection_set_questions (st : Store) (qs : List Question) (i : Nat) :
    findSection { st with questions := qs } i = findSection st i := rfl

/-- Inserting question rows leaves category lookups unchanged. -/
theorem findCategory_set_questions (st : Store) (qs : List Question) (i : Nat) :
    findCategory { st with questions := qs } i = findCategory st i := rfl

/-- Membership in the insertion-ordered section set. -/
theorem mem_addTouched {l : List Nat} {s x : Nat} : x ∈ addTouched l s ↔ x ∈ l ∨ x = s := by
  unfold addTouched
  by_cases h : s ∈ l
  · rw [if_pos (by simpa using h)]
    constructor
    · exact fun hx => Or.inl hx
    · rintro (hx | rfl)
      · exact hx
      · exact h
  · rw [if_neg (by simpa using h)]
    simp [List.mem_append]

/-- Dict lookup at the head of an association list. -/
theorem emapLookup_cons (p : Nat × StudentResponse) (m : List (Nat × StudentResponse)) (k : Nat) :
    emapLookup (p :: m) k = if p.1 = k then some p.2 else emapLookup m k := by
  by_cases h : p.1 = k <;> simp [emapLookup, List.find?_cons, h]

/-- Dict assignment then lookup of the same key. -/
theorem emapLookup_insert_self (m : List (Nat × StudentResponse)) (k : Nat) (v : StudentResponse) :
    emapLookup (emapInsert m k v) k = some v := by
  induction m with
  | nil => simp [emapInsert, emapLookup_cons]
  | cons p rest ih =>
    by_cases h : p.1 = k
    · simp [emapInsert, h, emapLookup_cons]
    · simp [emapInsert, h, emapLookup_cons, ih]

/-- Dict assignment leaves other keys unchanged. -/
theorem emapLookup_insert_ne {k2 k : Nat} (m : List (Nat × StudentResponse))
    (v : StudentResponse) (h : k2 ≠ k) :
    emapLookup (emapInsert m k v) k2 = emapLookup m k2 := by
  induction m with
  | nil => simp [emapInsert, emapLookup_cons, emapLookup, Ne.symm h]
  | cons p rest ih =>
    by_cases hp : p.1 = k
    · have hne : p.1 ≠ k2 := by rw [hp]; exact Ne.symm h
      simp [emapInsert, hp, emapLookup_cons, Ne.symm h, hne]
    · have hstep : emapInsert (p :: rest) k v = p :: emapInsert rest k v := by
        simp [emapInsert, hp]
      rw [hstep, emapLookup_cons, emapLookup_cons, ih]

/-- Folding dict assignments over rows: the lookup returns the last row with
the key, falling back to the initial dict. -/
theorem emapLookup_foldl (rows : List StudentResponse) :
    ∀ (m : List (Nat × StudentResponse)) (k : Nat),
      emapLookup (rows.foldl (fun m r => emapInsert m r.question_id r) m) k =
        match lastResp rows k with
        | some r => some r
        | none => emapLookup m k := by
  induction rows with
  | nil => intro m k; simp [lastResp]
  | cons r rows ih =>
    intro m k
    rw [List.foldl_cons, ih]
    cases hl : lastResp rows k with
    | some r2 => simp [lastResp, hl]
    | none =>
      by_cases hk : r.question_id = k
      · subst hk
        simp [lastResp, hl, emapLookup_insert_self]
      · simp [lastResp, hl, hk, emapLookup_insert_ne m r (Ne.symm hk)]

/-- The existing-responses map looks up the last stored row per question id. -/
theorem emapLookup_buildEmap (rows : List StudentResponse) (k : Nat) :
    emapLookup (buildEmap rows) k = lastResp rows k := by
  rw [buildEmap, emapLookup_foldl]
  cases lastResp rows k <;> simp [emapLookup]

/-- A last-row hit is a member carrying the key. -/
theorem lastResp_mem {rows : List StudentResponse} {k : Nat} {r : StudentResponse}
    (h : lastResp rows k = some r) : r ∈ rows ∧ r.question_id = k := by
  induction rows with
  | nil => simp [lastResp] at h
  | cons x xs ih =>
    rw [lastResp] at h
    cases hx : lastResp xs k with
    | some r2 =>
      rw [hx] at h
      obtain rfl : r2 = r := by simpa using h
      exact ⟨List.mem_cons_of_mem x (ih hx).1, (ih hx).2⟩
    | none =>
      rw [hx] at h
      by_cases hk : x.question_id = k
      · rw [if_pos hk] at h
        obtain rfl : x = r := by simpa using h
        exact ⟨List.mem_cons_self x xs, hk⟩
      · rw [if_neg hk] at h
        cases h

/-- The last-row lookup misses exactly when no row carries the key. -/
theorem lastResp_eq_none_iff {rows : List StudentResponse} {k : Nat} :
    lastResp rows k = none ↔ ∀ r ∈ rows, r.question_id ≠ k := by
  induction rows with
  | nil => simp [lastResp]
  | cons x xs ih =>
    rw [lastResp]
    cases hx : lastResp xs k with
    | some r2 =>
      simp only [hx]
      constructor
      · intro h; cases h
      · intro h
        exact absurd (lastResp_mem hx).2 (h r2 (List.mem_cons_of_mem x (lastResp_mem hx).1))
    | none =>
      simp only [hx]
      by_cases hk : x.question_id = k
      · rw [if_pos hk]
        constructor
        · intro h; cases h
        · intro h; exact absurd hk (h x (List.mem_cons_self x xs))
      · rw [if_neg hk]
        simp only [List.mem_cons, forall_eq_or_imp]
        constructor
        · intro _; exact ⟨hk, ih.mp hx⟩
        · intro _; trivial

/-- A batch item's question id is in the deduplicated id set. -/
theorem mem_questionIds {items : List ResponseItem} {it : ResponseItem} (h : it ∈ items) :
    it.question_id ∈ questionIds items := by
  simp only [questionIds, List.mem_dedup, List.mem_map]
  exact ⟨it, h, rfl⟩

/-- A batch item's option id is in the deduplicated id set. -/
theorem mem_optionIds {items : List ResponseItem} {it : ResponseItem} (h : it ∈ items) :
    it.selected_option_id ∈ optionIds items := by
  simp only [optionIds, List.mem_dedup, List.mem_map]
  exact ⟨it, h, rfl⟩

/-- When the missing-questions list is empty, every referenced question id
resolves inside the college. -/
theorem resolveQuestion_of_missing_nil {st : Store} {college : College}
    {items : List ResponseItem} (h : missingQuestions st college items = [])
    {qid : Nat} (hq : qid ∈ questionIds items) :
    ∃ q, resolveQuestion st college.id qid = some q := by
  rw [missingQuestions, List.filter_eq_nil_iff] at h
  have hnot := h qid hq
  cases hr : resolveQuestion st college.id qid with
  | none => rw [hr] at hnot; simp at hnot
  | some q => exact ⟨q, rfl⟩

/-- When the missing-options list is empty, every referenced option id exists. -/
theorem resolveOption_of_missing_nil {st : Store} {items : List ResponseItem}
    (h : missingOptions st items = []) {oid : Nat} (ho : oid ∈ optionIds items) :
    ∃ o, resolveOption st oid = some o := by
  rw [missingOptions, List.filter_eq_nil_iff] at h
  have hnot := h oid ho
  cases hr : resolveOption st oid with
  | none => rw [hr] at hnot; simp at hnot
  | some o => exact ⟨o, rfl⟩

/-- An unresolved question id of the batch appears in the missing-questions list. -/
theorem mem_missingQuestions {st : Store} {college : College} {items : List ResponseItem}
    {it : ResponseItem} (h : it ∈ items)
    (hr : resolveQuestion st college.id it.question_id = none) :
    it.question_id ∈ missingQuestions st college items := by
  rw [missingQuestions, List.mem_filter]
  exact ⟨mem_questionIds h, by simp [hr]⟩

/-- The view's per-section count-and-upsert loop computes the same store as the
service's aggregate-then-upsert recalculation: each upsert leaves the response
table (hence every subsequent count) unchanged. -/
theorem recalcMarksView_eq_service (stu : Nat) (sids : List Nat) (st : Store) :
    recalcMarksView st stu sids = recalcMarksService st stu sids := by
  induction sids generalizing st with
  | nil => rfl
  | cons sid rest ih =>
    simp only [recalcMarksView]
    rw [ih]
    rfl

/-- Touched-section tracking of one loop step: the section is added exactly
when the question's category is scored; the reconciliation fields do not feed it. -/
theorem stepItem_touched (st : Store) (stu : Student) (now : Nat) (item : ResponseItem)
    (q : Question) (ps : PlanState) :
    (stepItem st stu now item q ps).touched =
      if categoryScored st q then addTouched ps.touched q.section_id else ps.touched := by
  unfold stepItem
  cases hm : emapLookup ps.emap item.question_id with
  | none => by_cases hsc : categoryScored st q <;> simp [hm, hsc]
  | some r =>
    by_cases hne : r.selected_option_id ≠ item.selected_option_id <;>
      by_cases hsc : categoryScored st q <;> simp [hm, hne, hsc]

/-- A step whose item matches the stored answer changes nothing but possibly
the touched set. -/
theorem stepItem_noop {item : ResponseItem} {ps : PlanState} {r : StudentResponse}
    (st : Store) (stu : Student) (now : Nat) (q : Question)
    (hm : emapLookup ps.emap item.question_id = some r)
    (ho : r.selected_option_id = item.selected_option_id) :
    (stepItem st stu now item q ps).creates = ps.creates ∧
    (stepItem st stu now item q ps).updates = ps.updates ∧
    (stepItem st stu now item q ps).emap = ps.emap := by
  unfold stepItem
  by_cases hsc : categoryScored st q <;> simp [hm, ho, hsc]

/-- A step whose item changes an existing answer appends the question id to the
update list and overwrites the map entry with the mutated object. -/
theorem stepItem_update {item : ResponseItem} {ps : PlanState} {r : StudentResponse}
    (st : Store) (stu : Student) (now : Nat) (q : Question)
    (hm : emapLookup ps.emap item.question_id = some r)
    (ho : r.selected_option_id ≠ item.selected_option_id) :
    (stepItem st stu now item q ps).creates = ps.creates ∧
    (stepItem st stu now item q ps).updates = ps.updates ++ [item.question_id] ∧
    (stepItem st stu now item q ps).emap = emapInsert ps.emap item.question_id
      { r with selected_option_id := item.selected_option_id, submitted_at := now } := by
  unfold stepItem
  by_cases hsc : categoryScored st q <;> simp [hm, ho, hsc]

/-- A step whose item answers a so-far-unanswered question appends a new
StudentResponse object and leaves the map untouched. -/
theorem stepItem_create {item : ResponseItem} {ps : PlanState}
    (st : Store) (stu : Student) (now : Nat) (q : Question)
    (hm : emapLookup ps.emap item.question_id = none) :
    (stepItem st stu now item q ps).creates = ps.creates ++
      [newResponse stu.id item.question_id item.selected_option_id now] ∧
    (stepItem st stu now item q ps).updates = ps.updates ∧
    (stepItem st stu now item q ps).emap = ps.emap := by
  unfold stepItem
  by_cases hsc : categoryScored st q <;> simp [hm, hsc]

/-- One step appends at most the item's question id to the update list. -/
theorem stepItem_updates_or (st : Store) (stu : Student) (now : Nat) (item : ResponseItem)
    (q : Question) (ps : PlanState) :
    (stepItem st stu now item q ps).updates = ps.updates ∨
    (stepItem st stu now item q ps).updates = ps.updates ++ [item.question_id] := by
  cases hm : emapLookup ps.emap item.question_id with
  | none => exact Or.inl (stepItem_create st stu now q hm).2.1
  | some r =>
    by_cases ho : r.selected_option_id = item.selected_option_id
    · exact Or.inl (stepItem_noop st stu now q hm ho).2.1
    · exact Or.inr (stepItem_update st stu now q hm ho).2.1

/-- One step appends at most one new response object to the create list. -/
theorem stepItem_creates_or (st : Store) (stu : Student) (now : Nat) (item : ResponseItem)
    (q : Question) (ps : PlanState) :
    (stepItem st stu now item q ps).creates = ps.creates ∨
    (stepItem st stu now item q ps).creates = ps.creates ++
      [newResponse stu.id item.question_id item.selected_option_id now] := by
  cases hm : emapLookup ps.emap item.question_id with
  | none => exact Or.inr (stepItem_create st stu now q hm).1
  | some r =>
    by_cases ho : r.selected_option_id = item.selected_option_id
    · exact Or.inl (stepItem_noop st stu now q hm ho).1
    · exact Or.inl (stepItem_update st stu now q hm ho).1

/-- The loop only ever appends to the update and create lists. -/
theorem processItems_mono {st : Store} {cid : Nat} {stu : Student} {now : Nat} :
    ∀ {items : List ResponseItem} {ps ps' : PlanState},
      processItems st cid stu now items ps = .ok ps' →
      (∃ l, ps'.updates = ps.updates ++ l) ∧ (∃ l, ps'.creates = ps.creates ++ l) := by
  intro items
  induction items with
  | nil =>
    intro ps ps' h
    rw [processItems] at h
    cases h
    exact ⟨⟨[], by simp⟩, ⟨[], by simp⟩⟩
  | cons item rest ih =>
    intro ps ps' h
    cases hq : resolveQuestion st cid item.question_id with
    | none =>
      simp only [processItems, hq] at h
      exact Except.noConfusion h
    | some q =>
      cases ho : resolveOption st item.selected_option_id with
      | none =>
        simp only [processItems, hq, ho] at h
        exact Except.noConfusion h
      | some o =>
        simp only [processItems, hq, ho] at h
        by_cases hbad : o.question_id ≠ item.question_id
        · rw [if_pos hbad] at h
          exact Except.noConfusion h
        · rw [if_neg hbad] at h
          obtain ⟨⟨l1, hu⟩, ⟨l2, hc⟩⟩ := ih h
          constructor
          · rcases stepItem_updates_or st stu now item q ps with he | he
            · exact ⟨l1, by rw [hu, he]⟩
            · exact ⟨[item.question_id] ++ l1, by rw [hu, he, List.append_assoc]⟩
          · rcases stepItem_creates_or st stu now item q ps with he | he
            · exact ⟨l2, by rw [hc, he]⟩
            · exact ⟨_, by rw [hc, he, List.append_assoc]⟩

/-- A loop run that completes resolved every item's question inside the college,
resolved its option, and found no cross-question mismatch. -/
theorem processItems_resolves {st : Store} {cid : Nat} {stu : Student} {now : Nat} :
    ∀ {items : List ResponseItem} {ps ps' : PlanState},
      processItems st cid stu now items ps = .ok ps' →
      ∀ it ∈ items, ∃ q o, resolveQuestion st cid it.question_id = some q ∧
        resolveOption st it.selected_option_id = some o ∧ o.question_id = it.question_id := by
  intro items
  induction items with
  | nil => intro ps ps' h it hit; cases hit
  | cons item rest ih =>
    intro ps ps' h it hit
    cases hq : resolveQuestion st cid item.question_id with
    | none =>
      simp only [processItems, hq] at h
      exact Except.noConfusion h
    | some q =>
      cases ho : resolveOption st item.selected_option_id with
      | none =>
        simp only [processItems, hq, ho] at h
        exact Except.noConfusion h
      | some o =>
        simp only [processItems, hq, ho] at h
        by_cases hbad : o.question_id ≠ item.question_id
        · rw [if_pos hbad] at h
          exact Except.noConfusion h
        · rw [if_neg hbad] at h
          rw [List.mem_cons] at hit
          rcases hit with rfl | hit
          · exact ⟨q, o, hq, ho, by simpa using hbad⟩
          · exact ih h it hit

/-- The loop only ever adds to the touched-section set. -/
theorem processItems_touched_mono {st : Store} {cid : Nat} {stu : Student} {now : Nat} :
    ∀ {items : List ResponseItem} {ps ps' : PlanState},
      processItems st cid stu now items ps = .ok ps' →
      ∀ sid ∈ ps.touched, sid ∈ ps'.touched := by
  intro items
  induction items with
  | nil => intro ps ps' h sid hsid; rw [processItems] at h; cases h; exact hsid
  | cons item rest ih =>
    intro ps ps' h sid hsid
    cases hq : resolveQuestion st cid item.question_id with
    | none =>
      simp only [processItems, hq] at h
      exact Except.noConfusion h
    | some q =>
      cases ho : resolveOption st item.selected_option_id with
      | none =>
        simp only [processItems, hq, ho] at h
        exact Except.noConfusion h
      | some o =>
        simp only [processItems, hq, ho] at h
        by_cases hbad : o.question_id ≠ item.question_id
        · rw [if_pos hbad] at h
          exact Except.noConfusion h
        · rw [if_neg hbad] at h
          refine ih h sid ?_
          rw [stepItem_touched]
          by_cases hsc : categoryScored st q
          · rw [if_pos hsc]
            exact mem_addTouched.mpr (Or.inl hsid)
          · rw [if_neg hsc]
            exact hsid

/-- Any item that resolves to a scored question marks that question's section
as touched in the final loop state. -/
theorem processItems_touched_of {st : Store} {cid : Nat} {stu : Student} {now : Nat} :
    ∀ {items : List ResponseItem} {ps ps' : PlanState},
      processItems st cid stu now items ps = .ok ps' →
      ∀ it ∈ items, ∀ q, resolveQuestion st cid it.question_id = some q →
        categoryScored st q = true → q.section_id ∈ ps'.touched := by
  intro items
  induction items with
  | nil => intro ps ps' h it hit; cases hit
  | cons item rest ih =>
    intro ps ps' h it hit q hq hsc
    rw [List.mem_cons] at hit
    cases hq0 : resolveQuestion st cid item.question_id with
    | none =>
      simp only [processItems, hq0] at h
      exact Except.noConfusion h
    | some q0 =>
      cases ho : resolveOption st item.selected_option_id with
      | none =>
        simp only [processItems, hq0, ho] at h
        exact Except.noConfusion h
      | some o =>
        simp only [processItems, hq0, ho] at h
        by_cases hbad : o.question_id ≠ item.question_id
        · rw [if_pos hbad] at h
          exact Except.noConfusion h
        · rw [if_neg hbad] at h
          rcases hit with rfl | hit
          · have heq : q0 = q := by rw [hq0] at hq; exact Option.some.inj hq
            subst heq
            refine processItems_touched_mono h q0.section_id ?_
            rw [stepItem_touched, if_pos hsc]
            exact mem_addTouched.mpr (Or.inr rfl)
          · exact ih h it hit q hq hsc

/-- Every touched section in the final loop state was already touched or is the
section of some item's resolved question. -/
theorem processItems_touched_sub {st : Store} {cid : Nat} {stu : Student} {now : Nat} :
    ∀ {items : List ResponseItem} {ps ps' : PlanState},
      processItems st cid stu now items ps = .ok ps' →
      ∀ sid ∈ ps'.touched, sid ∈ ps.touched ∨
        ∃ it ∈ items, ∃ q, resolveQuestion st cid it.question_id = some q ∧
          q.section_id = sid := by
  intro items
  induction items with
  | nil =>
    intro ps ps' h sid hsid
    rw [processItems] at h; cases h
    exact Or.inl hsid
  | cons item rest ih =>
    intro ps ps' h sid hsid
    cases hq : resolveQuestion st cid item.question_id with
    | none =>
      simp only [processItems, hq] at h
      exact Except.noConfusion h
    | some q =>
      cases ho : resolveOption st item.selected_option_id with
      | none =>
        simp only [processItems, hq, ho] at h
        exact Except.noConfusion h
      | some o =>
        simp only [processItems, hq, ho] at h
        by_cases hbad : o.question_id ≠ item.question_id
        · rw [if_pos hbad] at h
          exact Except.noConfusion h
        · rw [if_neg hbad] at h
          rcases ih h sid hsid with hstep | ⟨it, hit, q2, hq2, hsec⟩
          · rw [stepItem_touched] at hstep
            by_cases hsc : categoryScored st q
            · rw [if_pos hsc] at hstep
              rcases mem_addTouched.mp hstep with hmem | rfl
              · exact Or.inl hmem
              · exact Or.inr ⟨item, List.mem_cons_self item rest, q, hq, rfl⟩
            · rw [if_neg hsc] at hstep
              exact Or.inl hstep
          · exact Or.inr ⟨it, List.mem_cons_of_mem item hit, q2, hq2, hsec⟩

/-- Every object in the final create list was there initially or is a fresh
response object for this student built from one of the items, whose question
resolved inside the college. -/
theorem processItems_creates_shape {st : Store} {cid : Nat} {stu : Student} {now : Nat} :
    ∀ {items : List ResponseItem} {ps ps' : PlanState},
      processItems st cid stu now items ps = .ok ps' →
      ∀ c ∈ ps'.creates, c ∈ ps.creates ∨
        (c.student_id = stu.id ∧ c.submitted_at = now ∧
          ∃ it ∈ items, c.question_id = it.question_id ∧
            c.selected_option_id = it.selected_option_id ∧
            ∃ q, resolveQuestion st cid it.question_id = some q) := by
  intro items
  induction items with
  | nil =>
    intro ps ps' h c hc
    rw [processItems] at h; cases h
    exact Or.inl hc
  | cons item rest ih =>
    intro ps ps' h c hc
    cases hq : resolveQuestion st cid item.question_id with
    | none =>
      simp only [processItems, hq] at h
      exact Except.noConfusion h
    | some q =>
      cases ho : resolveOption st item.selected_option_id with
      | none =>
        simp only [processItems, hq, ho] at h
        exact Except.noConfusion h
      | some o =>
        simp only [processItems, hq, ho] at h
        by_cases hbad : o.question_id ≠ item.question_id
        · rw [if_pos hbad] at h
          exact Except.noConfusion h
        · rw [if_neg hbad] at h
          rcases ih h c hc with hstep | ⟨hstu, hnow, it, hit, hrest⟩
          · rcases stepItem_creates_or st stu now item q ps with he | he
            · rw [he] at hstep
              exact Or.inl hstep
            · rw [he, List.mem_append] at hstep
              rcases hstep with hstep | hstep
              · exact Or.inl hstep
              · have hceq : c = _ := List.mem_singleton.mp hstep
                subst hceq
                exact Or.inr ⟨rfl, rfl, item, List.mem_cons_self item rest, rfl, rfl, q, hq⟩
          · exact Or.inr ⟨hstu, hnow, it, List.mem_cons_of_mem item hit, hrest⟩

/-- A loop run that appended nothing to the update list left the map untouched,
found every item either stored with the same option or freshly created with the
item's option, and created only rows for previously unanswered questions. -/
theorem processItems_noUpdates {st : Store} {cid : Nat} {stu : Student} {now : Nat} :
    ∀ {items : List ResponseItem} {ps ps' : PlanState},
      processItems st cid stu now items ps = .ok ps' →
      ps'.updates = ps.updates →
      ps'.emap = ps.emap ∧
      (∀ it ∈ items,
        (∃ r, emapLookup ps.emap it.question_id = some r ∧
          r.selected_option_id = it.selected_option_id) ∨
        (emapLookup ps.emap it.question_id = none ∧
          ∃ c ∈ ps'.creates, c.question_id = it.question_id ∧
            c.selected_option_id = it.selected_option_id)) ∧
      (∀ c ∈ ps'.creates, c ∈ ps.creates ∨ emapLookup ps.emap c.question_id = none) := by
  intro items
  induction items with
  | nil =>
    intro ps ps' h _
    rw [processItems] at h; cases h
    exact ⟨rfl, fun it hit => absurd hit (List.not_mem_nil it), fun c hc => Or.inl hc⟩
  | cons item rest ih =>
    intro ps ps' h hupd
    cases hq : resolveQuestion st cid item.question_id with
    | none =>
      simp only [processItems, hq] at h
      exact Except.noConfusion h
    | some q =>
      cases ho : resolveOption st item.selected_option_id with
      | none =>
        simp only [processItems, hq, ho] at h
        exact Except.noConfusion h
      | some o =>
        simp only [processItems, hq, ho] at h
        by_cases hbad : o.question_id ≠ item.question_id
        · rw [if_pos hbad] at h
          exact Except.noConfusion h
        · rw [if_neg hbad] at h
          cases hm : emapLookup ps.emap item.question_id with
          | some r =>
            by_cases hoeq : r.selected_option_id = item.selected_option_id
            · obtain ⟨hc1, hc2, hc3⟩ := stepItem_noop st stu now q hm hoeq
              have hupd' : ps'.updates = (stepItem st stu now item q ps).updates := by
                rw [hc2, hupd]
              obtain ⟨hemap, hitems, hcreates⟩ := ih h hupd'
              rw [hc3] at hemap
              refine ⟨hemap, ?_, ?_⟩
              · intro it hit
                rw [List.mem_cons] at hit
                rcases hit with rfl | hit
                · exact Or.inl ⟨r, hm, hoeq⟩
                · have hthis := hitems it hit
                  rw [hc3] at hthis
                  exact hthis
              · intro c hc
                have hthis := hcreates c hc
                rw [hc1, hc3] at hthis
                exact hthis
            · obtain ⟨hc1, hc2, hc3⟩ := stepItem_update st stu now q hm hoeq
              obtain ⟨l1, hl1⟩ := (processItems_mono h).1
              rw [hc2] at hl1
              rw [hupd] at hl1
              have hlen := congrArg List.length hl1
              simp only [List.length_append, List.length_singleton] at hlen
              omega
          | none =>
            obtain ⟨hc1, hc2, hc3⟩ := stepItem_create st stu now q hm
            have hupd' : ps'.updates = (stepItem st stu now item q ps).updates := by
              rw [hc2, hupd]
            obtain ⟨hemap, hitems, hcreates⟩ := ih h hupd'
            rw [hc3] at hemap
            refine ⟨hemap, ?_, ?_⟩
            · intro it hit
              rw [List.mem_cons] at hit
              rcases hit with rfl | hit
              · refine Or.inr ⟨hm, ?_⟩
                obtain ⟨l2, hl2⟩ := (processItems_mono h).2
                refine ⟨newResponse stu.id it.question_id it.selected_option_id now, ?_, rfl, rfl⟩
                rw [hl2, hc1]
                simp [newResponse]
              · have hthis := hitems it hit
                rw [hc3] at hthis
                exact hthis
            · intro c hc
              have hthis := hcreates c hc
              rw [hc3] at hthis
              rcases hthis with hin | hnone
              · rw [hc1, List.mem_append] at hin
                rcases hin with hin | hin
                · exact Or.inl hin
                · have hceq : c = _ := List.mem_singleton.mp hin
                  subst hceq
                  exact Or.inr hm
              · exact Or.inr hnone

/-- A loop over items that all match their stored answers completes without
touching the create list, the update list or the map. -/
theorem processItems_noop_run {st : Store} {cid : Nat} {stu : Student} {now : Nat} :
    ∀ {items : List ResponseItem} {ps : PlanState},
      (∀ it ∈ items,
        (∃ q, resolveQuestion st cid it.question_id = some q) ∧
        (∃ o, resolveOption st it.selected_option_id = some o ∧
          o.question_id = it.question_id) ∧
        (∃ r, emapLookup ps.emap it.question_id = some r ∧
          r.selected_option_id = it.selected_option_id)) →
      ∃ ps', processItems st cid stu now items ps = .ok ps' ∧
        ps'.creates = ps.creates ∧ ps'.updates = ps.updates ∧ ps'.emap = ps.emap := by
  intro items
  induction items with
  | nil => intro ps _; exact ⟨ps, rfl, rfl, rfl, rfl⟩
  | cons item rest ih =>
    intro ps hall
    obtain ⟨⟨q, hq⟩, ⟨o, ho, hoq⟩, ⟨r, hr, hro⟩⟩ := hall item (List.mem_cons_self item rest)
    obtain ⟨hc1, hc2, hc3⟩ := stepItem_noop st stu now q hr hro
    have hall2 : ∀ it ∈ rest,
        (∃ q2, resolveQuestion st cid it.question_id = some q2) ∧
        (∃ o2, resolveOption st it.selected_option_id = some o2 ∧
          o2.question_id = it.question_id) ∧
        (∃ r2, emapLookup (stepItem st stu now item q ps).emap it.question_id = some r2 ∧
          r2.selected_option_id = it.selected_option_id) := by
      intro it hit
      rw [hc3]
      exact hall it (List.mem_cons_of_mem item hit)
    obtain ⟨ps', h2, hcr, hup, hem⟩ := ih hall2
    refine ⟨ps', ?_, ?_, ?_, ?_⟩
    · simp only [processItems, hq, ho]
      rw [if_neg (by simp [hoq])]
      exact h2
    · rw [hcr, hc1]
    · rw [hup, hc2]
    · rw [hem, hc3]

/-- When every id resolves but some pair's option belongs to a different
question, the loop stops at the first such pair with the mismatch error naming
that pair's option id and question id. -/
theorem processItems_first_mismatch {st : Store} {cid : Nat} {stu : Student} {now : Nat} :
    ∀ {items : List ResponseItem} (ps : PlanState),
      (∀ it ∈ items, (∃ q, resolveQuestion st cid it.question_id = some q) ∧
        ∃ o, resolveOption st it.selected_option_id = some o) →
      (∃ it ∈ items, ∃ o, resolveOption st it.selected_option_id = some o ∧
        o.question_id ≠ it.question_id) →
      ∃ it, it ∈ items ∧
        (∃ o, resolveOption st it.selected_option_id = some o ∧
          o.question_id ≠ it.question_id) ∧
        processItems st cid stu now items ps =
          .error (.optionMismatch it.selected_option_id it.question_id) := by
  intro items
  induction items with
  | nil =>
    intro ps _ hbad
    obtain ⟨it, hit, _⟩ := hbad
    cases hit
  | cons item rest ih =>
    intro ps hres hbad
    obtain ⟨⟨q, hq⟩, ⟨o, ho⟩⟩ := hres item (List.mem_cons_self item rest)
    by_cases hmis : o.question_id ≠ item.question_id
    · refine ⟨item, List.mem_cons_self item rest, ⟨o, ho, hmis⟩, ?_⟩
      simp only [processItems, hq, ho]
      rw [if_pos hmis]
    · have hbad2 : ∃ it ∈ rest, ∃ o2, resolveOption st it.selected_option_id = some o2 ∧
          o2.question_id ≠ it.question_id := by
        obtain ⟨it, hit, o2, ho2, hne⟩ := hbad
        rw [List.mem_cons] at hit
        rcases hit with rfl | hit
        · rw [ho] at ho2
          obtain rfl := Option.some.inj ho2
          exact absurd hne hmis
        · exact ⟨it, hit, o2, ho2, hne⟩
      have hres2 : ∀ it ∈ rest, (∃ q2, resolveQuestion st cid it.question_id = some q2) ∧
          ∃ o2, resolveOption st it.selected_option_id = some o2 :=
        fun it hit => hres it (List.mem_cons_of_mem item hit)
      obtain ⟨it, hit, hbadit, heq⟩ := ih (stepItem st stu now item q ps) hres2 hbad2
      refine ⟨it, List.mem_cons_of_mem item hit, hbadit, ?_⟩
      simp only [processItems, hq, ho]
      rw [if_neg hmis]
      exact heq

/-- bulk_update writes fields but never changes a row's (student, question) key. -/
theorem applyOneUpdate_keys (rows : List StudentResponse) (stu qid a b : Nat) :
    ∀ row ∈ applyOneUpdate rows stu qid a b,
      ∃ r0 ∈ rows, r0.student_id = row.student_id ∧ r0.question_id = row.question_id := by
  intro row hrow
  rw [applyOneUpdate] at hrow
  obtain ⟨r0, hm0, heq⟩ := List.mem_map.mp hrow
  subst heq
  by_cases hcond : (r0.student_id == stu && r0.question_id == qid) = true
  · rw [if_pos hcond]
    exact ⟨r0, hm0, rfl, rfl⟩
  · rw [if_neg hcond]
    exact ⟨r0, hm0, rfl, rfl⟩

/-- The whole bulk_update phase preserves the key set of the response table. -/
theorem applyPlanUpdates_keys :
    ∀ (qids : List Nat) (rows : List StudentResponse) (stu : Nat)
      (emap : List (Nat × StudentResponse)),
      ∀ row ∈ applyPlanUpdates rows stu emap qids,
        ∃ r0 ∈ rows, r0.student_id = row.student_id ∧ r0.question_id = row.question_id := by
  intro qids
  induction qids with
  | nil => intro rows stu emap row hrow; exact ⟨row, hrow, rfl, rfl⟩
  | cons qid rest ih =>
    intro rows stu emap row hrow
    cases hm : emapLookup emap qid with
    | none =>
      simp only [applyPlanUpdates, hm] at hrow
      exact ih rows stu emap row hrow
    | some r =>
      simp only [applyPlanUpdates, hm] at hrow
      obtain ⟨r1, hm1, h1, h2⟩ :=
        ih (applyOneUpdate rows stu qid r.selected_option_id r.submitted_at) stu emap row hrow
      obtain ⟨r0, hm0, h3, h4⟩ :=
        applyOneUpdate_keys rows stu qid r.selected_option_id r.submitted_at r1 hm1
      exact ⟨r0, hm0, h3.trans h1, h4.trans h2⟩

/-- A successful bulk_create appends exactly the built rows; none of them
collided with an existing (student, question) key, and their keys are pairwise
distinct. -/
theorem tryBulkCreate_spec :
    ∀ (cs rows out : List StudentResponse),
      tryBulkCreate rows cs = some out →
      out = rows ++ cs ∧
      (∀ c ∈ cs, hasResponseKey rows c.student_id c.question_id = false) ∧
      List.Pairwise
        (fun a b => ¬(a.student_id = b.student_id ∧ a.question_id = b.question_id)) cs := by
  intro cs
  induction cs with
  | nil =>
    intro rows out h
    rw [tryBulkCreate] at h
    cases h
    exact ⟨by simp, by simp, List.Pairwise.nil⟩
  | cons c rest ih =>
    intro rows out h
    rw [tryBulkCreate] at h
    by_cases hk : hasResponseKey rows c.student_id c.question_id = true
    · rw [if_pos hk] at h
      exact Option.noConfusion h
    · rw [if_neg hk] at h
      obtain ⟨hout, hall, hpw⟩ := ih (rows ++ [c]) out h
      have hkey : ∀ c2 ∈ rest, hasResponseKey rows c2.student_id c2.question_id = false ∧
          ¬(c.student_id = c2.student_id ∧ c.question_id = c2.question_id) := by
        intro c2 hc2
        have h2 := hall c2 hc2
        rw [hasResponseKey, List.any_append] at h2
        rw [Bool.or_eq_false_iff] at h2
        constructor
        · exact h2.1
        · have h3 := h2.2
          simp only [List.any_cons, List.any_nil, Bool.or_false, Bool.and_eq_false_iff] at h3
          rintro ⟨hs, hq⟩
          rcases h3 with h3 | h3 <;> simp [hs, hq] at h3
      refine ⟨?_, ?_, ?_⟩
      · rw [hout, List.append_assoc]
        rfl
      · intro c2 hc2
        rw [List.mem_cons] at hc2
        rcases hc2 with rfl | hc2
        · simpa using hk
        · exact (hkey c2 hc2).1
      · exact List.Pairwise.cons (fun c2 hc2 => (hkey c2 hc2).2) hpw

/-- In a key-pairwise-distinct list, two members with equal keys are the same
element. -/
theorem pairwise_key_unique :
    ∀ (cs : List StudentResponse),
      List.Pairwise
        (fun a b => ¬(a.student_id = b.student_id ∧ a.question_id = b.question_id)) cs →
      ∀ a b, a ∈ cs → b ∈ cs →
        a.student_id = b.student_id → a.question_id = b.question_id → a = b := by
  intro cs
  induction cs with
  | nil => intro _ a b ha; cases ha
  | cons x rest ih =>
    intro hpw a b ha hb hs hq
    obtain ⟨hx, hrest⟩ := List.pairwise_cons.mp hpw
    rw [List.mem_cons] at ha hb
    rcases ha with rfl | ha <;> rcases hb with rfl | hb
    · rfl
    · exact absurd ⟨hs, hq⟩ (hx b hb)
    · exact absurd ⟨hs.symm, hq.symm⟩ (hx a ha)
    · exact ih hrest a b ha hb hs hq

/-- update_or_create then a lookup of the same (student, section) key returns
the upserted score. -/
theorem findMarks_upsert_self :
    ∀ (rs : List StudentSectionResult) (stu sid score : Nat),
      findMarks (upsertResult rs stu sid score) stu sid = some score := by
  intro rs
  induction rs with
  | nil => intro stu sid score; simp [upsertResult, findMarks]
  | cons r rest ih =>
    intro stu sid score
    by_cases hc : r.student_id = stu ∧ r.section_id = sid
    · simp [upsertResult, if_pos hc, findMarks, List.find?_cons, hc.1, hc.2]
    · have hcond : (r.student_id == stu && r.section_id == sid) = false := by
        by_contra hb
        rw [Bool.not_eq_false, Bool.and_eq_true, beq_iff_eq, beq_iff_eq] at hb
        exact hc hb
      rw [upsertResult, if_neg hc]
      rw [show findMarks (r :: upsertResult rest stu sid score) stu sid =
        findMarks (upsertResult rest stu sid score) stu sid from by
          simp [findMarks, List.find?_cons, hcond]]
      exact ih stu sid score

/-- update_or_create of one section leaves other sections' stored results
unchanged. -/
theorem findMarks_upsert_ne :
    ∀ (rs : List StudentSectionResult) (stu sid score sid2 : Nat), sid2 ≠ sid →
      findMarks (upsertResult rs stu sid score) stu sid2 = findMarks rs stu sid2 := by
  intro rs
  induction rs with
  | nil =>
    intro stu sid score sid2 h
    simp [upsertResult, findMarks, List.find?_cons, Ne.symm h]
  | cons r rest ih =>
    intro stu sid score sid2 h
    by_cases hc : r.student_id = stu ∧ r.section_id = sid
    · have hss : (sid == sid2) = false := by simp [Ne.symm h]
      rw [upsertResult, if_pos hc]
      simp [findMarks, List.find?_cons, hc.1, hc.2, hss]
    · rw [upsertResult, if_neg hc]
      by_cases hcond : (r.student_id == stu && r.section_id == sid2) = true
      · simp [findMarks, List.find?_cons, hcond]
      · have hcond2 : (r.student_id == stu && r.section_id == sid2) = false := by
          simpa using hcond
        rw [show findMarks (r :: upsertResult rest stu sid score) stu sid2 =
          findMarks (upsertResult rest stu sid score) stu sid2 from by
            simp [findMarks, List.find?_cons, hcond2]]
        rw [show findMarks (r :: rest) stu sid2 = findMarks rest stu sid2 from by
          simp [findMarks, List.find?_cons, hcond2]]
        exact ih stu sid score sid2 h

/-- Looking a section up after the whole upsert pass: touched sections hold
their freshly computed score, others are untouched. -/
theorem findMarks_applyUpserts :
    ∀ (sids : List Nat) (rs : List StudentSectionResult) (stu : Nat) (f : Nat → Nat) (sid : Nat),
      findMarks (applyUpserts rs stu sids f) stu sid =
        if sid ∈ sids then some (f sid) else findMarks rs stu sid := by
  intro sids
  induction sids with
  | nil => intro rs stu f sid; simp [applyUpserts]
  | cons a rest ih =>
    intro rs stu f sid
    rw [show applyUpserts rs stu (a :: rest) f =
      applyUpserts (upsertResult rs stu a (f a)) stu rest f from rfl]
    rw [ih]
    by_cases hmem : sid ∈ rest
    · rw [if_pos hmem, if_pos (List.mem_cons_of_mem a hmem)]
    · rw [if_neg hmem]
      by_cases heq : sid = a
      · subst heq
        rw [findMarks_upsert_self, if_pos (List.mem_cons_self sid rest)]
      · rw [findMarks_upsert_ne rs stu a (f a) sid heq,
          if_neg (by simp [List.mem_cons, heq, hmem])]

/-- The stored result of every touched section after the service rescoring is
the correct-response count over the store it ran on. -/
theorem lookupResult_recalcService (st : Store) (stu : Nat) (sids : List Nat) (sid : Nat)
    (h : sid ∈ sids) :
    lookupResult (recalcMarksService st stu sids) stu sid = some (scoreOf st stu sid) := by
  rw [recalcMarksService, lookupResult]
  dsimp only
  rw [findMarks_applyUpserts, if_pos h]

/-- A question resolved inside a college has its section owned by that college. -/
theorem resolveQuestion_section_in_college {st : Store} {cid qid : Nat} {q : Question}
    (hq : resolveQuestion st cid qid = some q) :
    sectionInCollege st cid q.section_id = true := by
  rw [resolveQuestion] at hq
  have hp := List.find?_some hq
  rw [Bool.and_eq_true] at hp
  have h2 := hp.2
  rw [questionInCollege] at h2
  rw [sectionInCollege]
  exact h2

/-- Any row present after one upsert was already present (same key) or carries
the upserted key. -/
theorem upsertResult_members :
    ∀ (rs : List StudentSectionResult) (stu a score : Nat),
      ∀ row ∈ upsertResult rs stu a score,
        (∃ r1 ∈ rs, r1.student_id = row.student_id ∧ r1.section_id = row.section_id) ∨
          (row.student_id = stu ∧ row.section_id = a) := by
  intro rs
  induction rs with
  | nil =>
    intro stu a score row hrow
    rw [upsertResult] at hrow
    have hceq : row = _ := List.mem_singleton.mp hrow
    subst hceq
    exact Or.inr ⟨rfl, rfl⟩
  | cons r rest ih =>
    intro stu a score row hrow
    rw [upsertResult] at hrow
    by_cases hc : r.student_id = stu ∧ r.section_id = a
    · rw [if_pos hc] at hrow
      rw [List.mem_cons] at hrow
      rcases hrow with rfl | hrow
      · exact Or.inl ⟨r, List.mem_cons_self r rest, rfl, rfl⟩
      · exact Or.inl ⟨row, List.mem_cons_of_mem r hrow, rfl, rfl⟩
    · rw [if_neg hc] at hrow
      rw [List.mem_cons] at hrow
      rcases hrow with rfl | hrow
      · exact Or.inl ⟨row, List.mem_cons_self row rest, rfl, rfl⟩
      · rcases ih stu a score row hrow with ⟨r1, hm1, hk1, hk2⟩ | hnew
        · exact Or.inl ⟨r1, List.mem_cons_of_mem r hm1, hk1, hk2⟩
        · exact Or.inr hnew

/-- Any row present after the whole upsert pass was already present (same key)
or belongs to one of the touched sections. -/
theorem applyUpserts_members :
    ∀ (sids : List Nat) (rs : List StudentSectionResult) (stu : Nat) (f : Nat → Nat),
      ∀ row ∈ applyUpserts rs stu sids f,
        (∃ r0 ∈ rs, r0.student_id = row.student_id ∧ r0.section_id = row.section_id) ∨
          row.section_id ∈ sids := by
  intro sids
  induction sids with
  | nil => intro rs stu f row hrow; exact Or.inl ⟨row, hrow, rfl, rfl⟩
  | cons a rest ih =>
    intro rs stu f row hrow
    rw [show applyUpserts rs stu (a :: rest) f =
      applyUpserts (upsertResult rs stu a (f a)) stu rest f from rfl] at hrow
    rcases ih (upsertResult rs stu a (f a)) stu f row hrow with ⟨r0, hm0, hk1, hk2⟩ | hmem
    · rcases upsertResult_members rs stu a (f a) r0 hm0 with ⟨r1, hm1, hk3, hk4⟩ | ⟨_, hsec⟩
      · exact Or.inl ⟨r1, hm1, hk3.trans hk1, hk4.trans hk2⟩
      · exact Or.inr (by rw [← hk2, hsec]; exact List.mem_cons_self a rest)
    · exact Or.inr (List.mem_cons_of_mem a hmem)

/-- Inversion of a successful service submission into its phases. -/
theorem process_submission_ok_inv {st : Store} {cn sid : String} {items : List ResponseItem}
    {now : Nat} {c u : Nat} {st' : Store}
    (h : process_submission st cn sid items now = (.ok c u, st')) :
    ∃ college student ps rows2,
      resolveCollege st cn = some college ∧
      resolveStudent st college sid = some student ∧
      missingQuestions st college items = [] ∧
      missingOptions st items = [] ∧
      processItems st college.id student now items
        { creates := [], updates := [], touched := [],
          emap := initialEmap st student.id items } = .ok ps ∧
      tryBulkCreate (applyPlanUpdates st.responses student.id ps.emap ps.updates)
        ps.creates = some rows2 ∧
      c = ps.creates.length ∧ u = ps.updates.length ∧
      st' = recalcMarksService { st with responses := rows2 } student.id ps.touched := by
  cases hc : resolveCollege st cn with
  | none =>
    simp only [process_submission, hc] at h
    exact absurd (congrArg Prod.fst h) (by simp)
  | some college =>
    cases hst : resolveStudent st college sid with
    | none =>
      simp only [process_submission, hc, hst] at h
      exact absurd (congrArg Prod.fst h) (by simp)
    | some student =>
      simp only [process_submission, hc, hst] at h
      by_cases hmiss : missingQuestions st college items ≠ [] ∨ missingOptions st items ≠ []
      · rw [if_pos hmiss] at h
        exact absurd (congrArg Prod.fst h) (by simp)
      · rw [if_neg hmiss] at h
        have hmq : missingQuestions st college items = [] :=
          not_ne_iff.mp (not_or.mp hmiss).1
        have hmo : missingOptions st items = [] :=
          not_ne_iff.mp (not_or.mp hmiss).2
        cases hpi : processItems st college.id student now items
            { creates := [], updates := [], touched := [],
              emap := initialEmap st student.id items } with
        | error e =>
          simp only [hpi] at h
          exact absurd (congrArg Prod.fst h) (by simp)
        | ok ps =>
          simp only [hpi] at h
          cases hbc : tryBulkCreate (applyPlanUpdates st.responses student.id ps.emap ps.updates)
              ps.creates with
          | none =>
            simp only [hbc] at h
            exact absurd (congrArg Prod.fst h) (by simp)
          | some rows2 =>
            simp only [hbc] at h
            have h1 := congrArg Prod.fst h
            have h2 := congrArg Prod.snd h
            simp only [] at h1 h2
            refine ⟨college, student, ps, rows2, rfl, hst, hmq, hmo, hpi, hbc, ?_, ?_, h2.symm⟩
            · exact (SubmitOutcome.ok.inj h1).1.symm
            · exact (SubmitOutcome.ok.inj h1).2.symm

/-- C4: for every non-empty batch and every initial store, the service
implementation (services.py SurveySubmissionService.process_submission) and the
inline view implementation (views.py submit_responses) accept and reject
exactly the same batches and, on acceptance, produce the same final store —
the same StudentResponse rows and the same StudentSectionResult scores. -/
theorem C4_service_view_equivalent (st : Store) (cn sid : String) (items : List ResponseItem)
    (now : Nat) (h : items ≠ []) :
    process_submission st cn sid items now = submit_responses st cn sid items now := by
  have hne : items.isEmpty = false := by
    cases items with
    | nil => exact absurd rfl h
    | cons a l => rfl
  have hfun : recalcMarksView = recalcMarksService := by
    funext a b c
    exact recalcMarksView_eq_service b c a
  rw [submit_responses, hne]
  rw [if_neg Bool.false_ne_true, hfun]
  rfl

/-- C4 witness: at a concrete non-empty batch the two pipelines agree. -/
theorem C4_service_view_equivalent_witness :
    process_submission storeA "test u" "S-1" [⟨1, 1⟩, ⟨2, 4⟩] 10 =
      submit_responses storeA "test u" "S-1" [⟨1, 1⟩, ⟨2, 4⟩] 10 :=
  C4_service_view_equivalent storeA "test u" "S-1" [⟨1, 1⟩, ⟨2, 4⟩] 10 (by decide)

/-- C7: the endpoint rejects an empty responses list before resolving anything
(the serializer's allow_empty=False), for every college name, student id and
store, and returns the store untouched. -/
theorem C7_empty_batch_rejected (st : Store) (cn sid : String) (now : Nat) :
    submit_responses st cn sid [] now = (.error .emptyBatch, st) := rfl

/-- C10: a batch repeating the same question id passes the pre-write
validation (no missing ids) but then builds two StudentResponse rows for the
same (student, question) key, so the write phase fails with the
IntegrityError-mapped conflict — not a ValidationError — and the whole store
is rolled back unchanged. -/
theorem C10_duplicate_question_conflict :
    submit_responses storeA "test u" "S-1" [⟨1, 1⟩, ⟨1, 1⟩] 10 = (.error .conflict, storeA) ∧
      missingQuestions storeA ⟨1, "Test U"⟩ [⟨1, 1⟩, ⟨1, 1⟩] = [] ∧
      missingOptions storeA [⟨1, 1⟩, ⟨1, 1⟩] = [] := by
  refine ⟨?_, rfl, rfl⟩
  decide

/-- C8: creating a question under a non-scored category whose section holds a
non-empty template appends exactly one Option per SubjectiveOption of the
template, with the template's text and is_correct=false, in template order; a
scored category, a missing template or an empty template appends nothing; and
saving an existing question again (created=False) never generates options. -/
theorem C8_default_option_generation (st : Store) (qid sectionId : Nat) (text : String)
    (nid : Nat) :
    (∀ s c tid, findSection st sectionId = some s → findCategory st s.category_id = some c →
      c.has_correct_answers = false → s.subjective_option_template_id = some tid →
      st.subjectiveOptions.filter (fun o => o.template_id == tid) ≠ [] →
      (create_question st qid sectionId text nid).options =
        st.options ++ (st.subjectiveOptions.filter (fun o => o.template_id == tid)).enum.map
          (fun p => { id := nid + p.1, question_id := qid, text := p.2.text, is_correct := false })) ∧
    (∀ s c, findSection st sectionId = some s → findCategory st s.category_id = some c →
      c.has_correct_answers = true →
      (create_question st qid sectionId text nid).options = st.options) ∧
    (∀ s, findSection st sectionId = some s → s.subjective_option_template_id = none →
      (create_question st qid sectionId text nid).options = st.options) ∧
    (∀ s tid, findSection st sectionId = some s → s.subjective_option_template_id = some tid →
      st.subjectiveOptions.filter (fun o => o.template_id == tid) = [] →
      (create_question st qid sectionId text nid).options = st.options) ∧
    (∀ qid2 text2 nid2, (update_question_text st qid2 text2 nid2).options = st.options) := by
  have hupd : ∀ qid2 text2 nid2, (update_question_text st qid2 text2 nid2).options = st.options := by
    intro qid2 text2 nid2
    rw [update_question_text]
    cases hfind : (st.questions.map
        (fun q => if q.id == qid2 then { q with text := text2 } else q)).find? (fun q => q.id == qid2) with
    | none => rfl
    | some q => simp [create_default_options]
  refine ⟨?_, ?_, ?_, ?_, hupd⟩
  · intro s c tid hs hc hflag htid hnonempty
    have hne : (st.subjectiveOptions.filter (fun o => o.template_id == tid)).isEmpty = false := by
      simp [List.isEmpty_iff, hnonempty]
    simp [create_question, create_default_options, findSection_set_questions,
      findCategory_set_questions, hs, hc, hflag, htid, hne]
  · intro s c hs hc hflag
    simp [create_question, create_default_options, findSection_set_questions,
      findCategory_set_questions, hs, hc, hflag]
  · intro s hs htid
    cases hc : findCategory st s.category_id with
    | none =>
      simp [create_question, create_default_options, findSection_set_questions,
        findCategory_set_questions, hs, hc]
    | some c =>
      by_cases hflag : c.has_correct_answers = true <;>
        simp [create_question, create_default_options, findSection_set_questions,
          findCategory_set_questions, hs, hc, htid, hflag]
  · intro s tid hs htid hempty
    have hemp : (st.subjectiveOptions.filter (fun o => o.template_id == tid)).isEmpty = true := by
      simp [List.isEmpty_iff, hempty]
    cases hc : findCategory st s.category_id with
    | none =>
      simp [create_question, create_default_options, findSection_set_questions,
        findCategory_set_questions, hs, hc]
    | some c =>
      by_cases hflag : c.has_correct_answers = true <;>
        simp [create_question, create_default_options, findSection_set_questions,
          findCategory_set_questions, hs, hc, htid, hflag, hemp]

/-- C8 witness: on the concrete store, creating a question in the templated
subjective section appends the two template options in order, and re-saving it
appends nothing. -/
theorem C8_default_option_generation_witness :
    (create_question storeA 4 2 "Q4" 100).options =
      storeA.options ++ (storeA.subjectiveOptions.filter (fun o => o.template_id == 1)).enum.map
        (fun p => { id := 100 + p.1, question_id := 4, text := p.2.text, is_correct := false }) :=
  (C8_default_option_generation storeA 4 2 "Q4" 100).1 ⟨2, 2, "Campus", some 1⟩
    ⟨2, 1, "Feedback", false⟩ 1 (by decide) (by decide) rfl rfl (by decide)

/-- C6: when the batch references at least one unresolvable question or option
id, submit fails with a single error carrying every unresolved question id and
every unresolved option id together (and nothing but unresolved ids), before
any write: the store comes back unchanged. -/
theorem C6_missing_ids_accumulated (st : Store) (cn sid : String) (items : List ResponseItem)
    (now : Nat) (college : College) (student : Student)
    (hc : resolveCollege st cn = some college)
    (hs : resolveStudent st college sid = some student)
    (hbad : missingQuestions st college items ≠ [] ∨ missingOptions st items ≠ []) :
    process_submission st cn sid items now =
      (.error (.missingIds (missingQuestions st college items) (missingOptions st items)), st) ∧
    (∀ qid ∈ questionIds items, resolveQuestion st college.id qid = none →
      qid ∈ missingQuestions st college items) ∧
    (∀ oid ∈ optionIds items, resolveOption st oid = none →
      oid ∈ missingOptions st items) ∧
    (∀ qid ∈ missingQuestions st college items, resolveQuestion st college.id qid = none) ∧
    (∀ oid ∈ missingOptions st items, resolveOption st oid = none) := by
  refine ⟨?_, ?_, ?_, ?_, ?_⟩
  · simp only [process_submission, hc, hs]
    rw [if_pos hbad]
  · intro qid hq hr
    rw [missingQuestions, List.mem_filter]
    exact ⟨hq, by simp [hr]⟩
  · intro oid ho hr
    rw [missingOptions, List.mem_filter]
    exact ⟨ho, by simp [hr]⟩
  · intro qid hq
    rw [missingQuestions, List.mem_filter] at hq
    have h2 := hq.2
    cases hr : resolveQuestion st college.id qid with
    | none => rfl
    | some q => rw [hr] at h2; simp at h2
  · intro oid ho
    rw [missingOptions, List.mem_filter] at ho
    have h2 := ho.2
    cases hr : resolveOption st oid with
    | none => rfl
    | some o => rw [hr] at h2; simp at h2

/-- C6 witness: a batch naming an unknown question id and an unknown option id
fails with both listed and the store unchanged. -/
theorem C6_missing_ids_accumulated_witness :
    process_submission storeA "test u" "S-1" [⟨9, 1⟩, ⟨1, 99⟩] 10 =
        (.error (.missingIds (missingQuestions storeA ⟨1, "Test U"⟩ [⟨9, 1⟩, ⟨1, 99⟩])
          (missingOptions storeA [⟨9, 1⟩, ⟨1, 99⟩])), storeA) ∧
      (∀ qid ∈ questionIds [(⟨9, 1⟩ : ResponseItem), ⟨1, 99⟩],
        resolveQuestion storeA 1 qid = none →
        qid ∈ missingQuestions storeA ⟨1, "Test U"⟩ [⟨9, 1⟩, ⟨1, 99⟩]) ∧
      (∀ oid ∈ optionIds [(⟨9, 1⟩ : ResponseItem), ⟨1, 99⟩], resolveOption storeA oid = none →
        oid ∈ missingOptions storeA [⟨9, 1⟩, ⟨1, 99⟩]) ∧
      (∀ qid ∈ missingQuestions storeA ⟨1, "Test U"⟩ [⟨9, 1⟩, ⟨1, 99⟩],
        resolveQuestion storeA 1 qid = none) ∧
      (∀ oid ∈ missingOptions storeA [⟨9, 1⟩, ⟨1, 99⟩], resolveOption storeA oid = none) :=
  C6_missing_ids_accumulated storeA "test u" "S-1" [⟨9, 1⟩, ⟨1, 99⟩] 10
    ⟨1, "Test U"⟩ ⟨1, 1, "S-1", "Alice"⟩ (by decide) (by decide) (by decide)

/-- C5: when every referenced id resolves but some pair's resolved option
belongs to a different question, submit fails with the ValidationError naming
that pair's option id and question id, and the store comes back unchanged — no
StudentResponse or StudentSectionResult is written. -/
theorem C5_option_mismatch_rejected (st : Store) (cn sid : String) (items : List ResponseItem)
    (now : Nat) (college : College) (student : Student)
    (hc : resolveCollege st cn = some college)
    (hs : resolveStudent st college sid = some student)
    (hmq : missingQuestions st college items = [])
    (hmo : missingOptions st items = [])
    (hbad : ∃ it ∈ items, ∃ o, resolveOption st it.selected_option_id = some o ∧
      o.question_id ≠ it.question_id) :
    ∃ it ∈ items, ∃ o, resolveOption st it.selected_option_id = some o ∧
      o.question_id ≠ it.question_id ∧
      process_submission st cn sid items now =
        (.error (.optionMismatch it.selected_option_id it.question_id), st) := by
  have hres : ∀ it ∈ items, (∃ q, resolveQuestion st college.id it.question_id = some q) ∧
      ∃ o, resolveOption st it.selected_option_id = some o := by
    intro it hit
    exact ⟨resolveQuestion_of_missing_nil hmq (mem_questionIds hit),
      resolveOption_of_missing_nil hmo (mem_optionIds hit)⟩
  obtain ⟨it, hit, ⟨o, ho2, hne⟩, heq⟩ := processItems_first_mismatch
    { creates := [], updates := [], touched := [], emap := initialEmap st student.id items }
    hres hbad
  refine ⟨it, hit, o, ho2, hne, ?_⟩
  simp only [process_submission, hc, hs]
  rw [if_neg (by simp [hmq, hmo])]
  rw [heq]

/-- C5 witness: submitting the pair (question 1, option 3) where option 3
belongs to question 2 fails naming option id 3 and question id 1. -/
theorem C5_option_mismatch_rejected_witness :
    ∃ it ∈ [(⟨1, 3⟩ : ResponseItem)], ∃ o, resolveOption storeA it.selected_option_id = some o ∧
      o.question_id ≠ it.question_id ∧
      process_submission storeA "test u" "S-1" [⟨1, 3⟩] 10 =
        (.error (.optionMismatch it.selected_option_id it.question_id), storeA) :=
  C5_option_mismatch_rejected storeA "test u" "S-1" [⟨1, 3⟩] 10
    ⟨1, "Test U"⟩ ⟨1, 1, "S-1", "Alice"⟩ (by decide) (by decide) (by decide) (by decide)
    ⟨⟨1, 3⟩, by decide, ⟨3, 2, "c", true⟩, by decide, by decide⟩

/-- C3: questions are resolved only inside the student's college, so a pair
whose question lives in another college makes the whole batch fail as
missing-ids with that question id listed and the store unchanged; and on any
successful submission, every response row is either an already-present key or a
question resolved inside the college, and every section-result row is either an
already-present key or a section owned by the college. -/
theorem C3_college_scoping (st : Store) (cn sid : String) (items : List ResponseItem)
    (now : Nat) (college : College) (student : Student)
    (hc : resolveCollege st cn = some college)
    (hs : resolveStudent st college sid = some student) :
    (∀ it ∈ items, resolveQuestion st college.id it.question_id = none →
      process_submission st cn sid items now =
        (.error (.missingIds (missingQuestions st college items)
          (missingOptions st items)), st) ∧
        it.question_id ∈ missingQuestions st college items) ∧
    (∀ c u st', process_submission st cn sid items now = (.ok c u, st') →
      (∀ r ∈ st'.responses,
        (∃ r0 ∈ st.responses, r0.student_id = r.student_id ∧
          r0.question_id = r.question_id) ∨
        ∃ q, resolveQuestion st college.id r.question_id = some q) ∧
      (∀ rr ∈ st'.sectionResults,
        (∃ rr0 ∈ st.sectionResults, rr0.student_id = rr.student_id ∧
          rr0.section_id = rr.section_id) ∨
        sectionInCollege st college.id rr.section_id = true)) := by
  constructor
  · intro it hit hr
    have hmem := mem_missingQuestions hit hr
    refine ⟨?_, hmem⟩
    simp only [process_submission, hc, hs]
    rw [if_pos (Or.inl (List.ne_nil_of_mem hmem))]
  · intro c u st' h
    obtain ⟨college2, student2, ps, rows2, hc2, hs2, hmq, hmo, hpi, hbc, hcc, huu, hst'⟩ :=
      process_submission_ok_inv h
    rw [hc] at hc2
    obtain rfl : college = college2 := Option.some.inj hc2
    rw [hs] at hs2
    obtain rfl : student = student2 := Option.some.inj hs2
    subst hst'
    constructor
    · intro r hr
      have hrr : r ∈ rows2 := by
        have hre : (recalcMarksService { st with responses := rows2 }
            student.id ps.touched).responses = rows2 := rfl
        rw [hre] at hr
        exact hr
      obtain ⟨hout, _, _⟩ := tryBulkCreate_spec ps.creates _ rows2 hbc
      rw [hout, List.mem_append] at hrr
      rcases hrr with hrr | hrr
      · obtain ⟨r0, hm0, h1, h2⟩ :=
          applyPlanUpdates_keys ps.updates st.responses student.id ps.emap r hrr
        exact Or.inl ⟨r0, hm0, h1, h2⟩
      · rcases processItems_creates_shape hpi r hrr with hin | ⟨_, _, it, _, hqid, _, q, hq⟩
        · exact absurd hin (List.not_mem_nil r)
        · refine Or.inr ⟨q, ?_⟩
          rw [hqid]
          exact hq
    · intro rr hrr
      have hsr : rr ∈ applyUpserts st.sectionResults student.id ps.touched
          (fun s => scoreOf { st with responses := rows2 } student.id s) := by
        have hre : (recalcMarksService { st with responses := rows2 }
            student.id ps.touched).sectionResults =
            applyUpserts st.sectionResults student.id ps.touched
              (fun s => scoreOf { st with responses := rows2 } student.id s) := rfl
        rw [hre] at hrr
        exact hrr
      rcases applyUpserts_members ps.touched st.sectionResults student.id _ rr hsr with
        ⟨r0, hm0, h1, h2⟩ | hmem
      · exact Or.inl ⟨r0, hm0, h1, h2⟩
      · rcases processItems_touched_sub hpi rr.section_id hmem with htch | ⟨it, _, q, hq, hsec⟩
        · exact absurd htch (List.not_mem_nil rr.section_id)
        · refine Or.inr ?_
          rw [← hsec]
          exact resolveQuestion_section_in_college hq

/-- C3 witness: on the two-college store, submitting the other college's
question 9 is rejected as missing with 9 listed, and the accepted-path
obligations hold for every accepted submission of that batch. -/
theorem C3_college_scoping_witness :
    (∀ it ∈ [(⟨9, 9⟩ : ResponseItem)], resolveQuestion storeC 1 it.question_id = none →
      process_submission storeC "test u" "S-1" [⟨9, 9⟩] 10 =
        (.error (.missingIds (missingQuestions storeC ⟨1, "Test U"⟩ [⟨9, 9⟩])
          (missingOptions storeC [⟨9, 9⟩])), storeC) ∧
        it.question_id ∈ missingQuestions storeC ⟨1, "Test U"⟩ [⟨9, 9⟩]) ∧
    (∀ c u st', process_submission storeC "test u" "S-1" [⟨9, 9⟩] 10 = (.ok c u, st') →
      (∀ r ∈ st'.responses,
        (∃ r0 ∈ storeC.responses, r0.student_id = r.student_id ∧
          r0.question_id = r.question_id) ∨
        ∃ q, resolveQuestion storeC 1 r.question_id = some q) ∧
      (∀ rr ∈ st'.sectionResults,
        (∃ rr0 ∈ storeC.sectionResults, rr0.student_id = rr.student_id ∧
          rr0.section_id = rr.section_id) ∨
        sectionInCollege storeC 1 rr.section_id = true)) :=
  C3_college_scoping storeC "test u" "S-1" [⟨9, 9⟩] 10
    ⟨1, "Test U"⟩ ⟨1, 1, "S-1", "Alice"⟩ (by decide) (by decide)

/-- C1: after any accepted submission, every scored section touched by the
batch (a section holding some item's resolved question under a category with
has_correct_answers) has a stored StudentSectionResult row whose total_marks
equals the number of the student's responses in that section whose selected
option is correct, counted over the final store — including the zero case,
where the row exists with score 0. -/
theorem C1_touched_section_score (st : Store) (cn sid : String) (items : List ResponseItem)
    (now : Nat) (c u : Nat) (st' : Store) (college : College) (student : Student) (S : Nat)
    (hc : resolveCollege st cn = some college)
    (hs : resolveStudent st college sid = some student)
    (h : process_submission st cn sid items now = (.ok c u, st'))
    (htouch : ∃ it ∈ items, ∃ q, resolveQuestion st college.id it.question_id = some q ∧
      categoryScored st q = true ∧ q.section_id = S) :
    lookupResult st' student.id S = some (scoreOf st' student.id S) := by
  obtain ⟨college2, student2, ps, rows2, hc2, hs2, hmq, hmo, hpi, hbc, hcc, huu, hst'⟩ :=
    process_submission_ok_inv h
  rw [hc] at hc2
  obtain rfl : college = college2 := Option.some.inj hc2
  rw [hs] at hs2
  obtain rfl : student = student2 := Option.some.inj hs2
  subst hst'
  obtain ⟨it, hit, q, hq, hsc, hsec⟩ := htouch
  have hS : S ∈ ps.touched := by
    rw [← hsec]
    exact processItems_touched_of hpi it hit q hq hsc
  have hL := lookupResult_recalcService { st with responses := rows2 } student.id ps.touched S hS
  have hsc2 : scoreOf (recalcMarksService { st with responses := rows2 } student.id ps.touched)
      student.id S = scoreOf { st with responses := rows2 } student.id S := by
    rw [recalcMarksService]
    exact scoreOf_set_sectionResults { st with responses := rows2 } _ student.id S
  rw [hsc2]
  exact hL

/-- C1 witness: in the concrete run scoring section 1, the stored row equals
the recomputed correct count over the final store. -/
theorem C1_touched_section_score_witness :
    lookupResult (process_submission storeA "test u" "S-1" [⟨1, 1⟩, ⟨2, 4⟩] 10).2 1 1 =
      some (scoreOf (process_submission storeA "test u" "S-1" [⟨1, 1⟩, ⟨2, 4⟩] 10).2 1 1) :=
  C1_touched_section_score storeA "test u" "S-1" [⟨1, 1⟩, ⟨2, 4⟩] 10 2 0
    (process_submission storeA "test u" "S-1" [⟨1, 1⟩, ⟨2, 4⟩] 10).2
    ⟨1, "Test U"⟩ ⟨1, 1, "S-1", "Alice"⟩ 1 (by decide) (by decide) (by decide)
    ⟨⟨1, 1⟩, by decide, ⟨1, 1, "Q1"⟩, by decide, by decide, rfl⟩

/-- C2 counterexample: for the valid one-pair batch [(question 1, option 2)]
against a store where the student already answered question 1 with option 1,
the first call returns (created=0, updated=1), not (created=N, updated=0) as
the claim asserts for every valid non-empty batch. -/
theorem C2_first_call_counterexample :
    (process_submission storeB "test u" "S-1" [⟨1, 2⟩] 7).1 = .ok 0 1 ∧
      (process_submission storeB "test u" "S-1" [⟨1, 2⟩] 7).1 ≠ .ok 1 0 := by
  decide

/-- The last row with a key in an appended list: later rows take priority. -/
theorem lastResp_append (xs ys : List StudentResponse) (k : Nat) :
    lastResp (xs ++ ys) k =
      match lastResp ys k with
      | some r => some r
      | none => lastResp xs k := by
  induction xs with
  | nil =>
    rw [List.nil_append]
    cases lastResp ys k <;> rfl
  | cons x xs ih =>
    rw [List.cons_append, lastResp, ih]
    cases hy : lastResp ys k <;> rfl

/-- The existing-responses map lookup is the last stored row of this student
for the question, among the rows fetched for the batch's question ids. -/
theorem emapLookup_initialEmap (st : Store) (stu : Nat) (items : List ResponseItem) (k : Nat) :
    emapLookup (initialEmap st stu items) k =
      lastResp (st.responses.filter
        (fun r => r.student_id == stu && (questionIds items).contains r.question_id)) k := by
  rw [initialEmap, emapLookup_buildEmap, existingRows]

/-- C2 (amended): whenever a submission returns (created=N, updated=0),
resubmitting the identical batch immediately afterwards returns
(created=0, updated=0) and performs no write to any StudentResponse — the
response table of the resulting store is unchanged. -/
theorem C2_identical_resubmission_noop (st : Store) (cn sid : String)
    (items : List ResponseItem) (now now2 N : Nat) (st₁ : Store)
    (h : process_submission st cn sid items now = (.ok N 0, st₁)) :
    ∃ st₂, process_submission st₁ cn sid items now2 = (.ok 0 0, st₂) ∧
      st₂.responses = st₁.responses := by
  obtain ⟨college, student, ps, rows2, hc, hs, hmq, hmo, hpi, hbc, hN, h0, hst₁⟩ :=
    process_submission_ok_inv h
  have hupd0 : ps.updates = [] := List.length_eq_zero.mp h0.symm
  have hbc2 : tryBulkCreate st.responses ps.creates = some rows2 := by
    rw [hupd0] at hbc
    exact hbc
  obtain ⟨hrows2, hnokey, hpw⟩ := tryBulkCreate_spec ps.creates st.responses rows2 hbc2
  obtain ⟨hemap, hitems0, hcreates0⟩ := processItems_noUpdates hpi (by rw [hupd0])
  have hitems : ∀ it ∈ items,
      (∃ r, emapLookup (initialEmap st student.id items) it.question_id = some r ∧
        r.selected_option_id = it.selected_option_id) ∨
      (emapLookup (initialEmap st student.id items) it.question_id = none ∧
        ∃ cr ∈ ps.creates, cr.question_id = it.question_id ∧
          cr.selected_option_id = it.selected_option_id) := hitems0
  have hcreates : ∀ cr ∈ ps.creates,
      emapLookup (initialEmap st student.id items) cr.question_id = none := by
    intro cr hcr
    rcases hcreates0 cr hcr with hin | hl
    · exact absurd hin (List.not_mem_nil cr)
    · exact hl
  have hcstu : ∀ cr ∈ ps.creates, cr.student_id = student.id := by
    intro cr hcr
    rcases processItems_creates_shape hpi cr hcr with hin | ⟨hstu, _⟩
    · exact absurd hin (List.not_mem_nil cr)
    · exact hstu
  have hres1 := processItems_resolves hpi
  have hc1 : resolveCollege st₁ cn = some college := by
    rw [hst₁]
    exact hc
  have hs1 : resolveStudent st₁ college sid = some student := by
    rw [hst₁]
    exact hs
  have hmq1 : missingQuestions st₁ college items = [] := by
    rw [hst₁]
    exact hmq
  have hmo1 : missingOptions st₁ items = [] := by
    rw [hst₁]
    exact hmo
  have hall : ∀ it ∈ items,
      (∃ q, resolveQuestion st₁ college.id it.question_id = some q) ∧
      (∃ o, resolveOption st₁ it.selected_option_id = some o ∧
        o.question_id = it.question_id) ∧
      (∃ r, emapLookup (initialEmap st₁ student.id items) it.question_id = some r ∧
        r.selected_option_id = it.selected_option_id) := by
    intro it hit
    obtain ⟨q, o, hq, ho, hoq⟩ := hres1 it hit
    refine ⟨⟨q, by rw [hst₁]; exact hq⟩, ⟨o, by rw [hst₁]; exact ho, hoq⟩, ?_⟩
    have hlkT : emapLookup (initialEmap st₁ student.id items) it.question_id =
        lastResp ((st.responses.filter (fun r => r.student_id == student.id &&
            (questionIds items).contains r.question_id)) ++
          (ps.creates.filter (fun r => r.student_id == student.id &&
            (questionIds items).contains r.question_id))) it.question_id := by
      rw [hst₁]
      rw [emapLookup_initialEmap (recalcMarksService { st with responses := rows2 }
        student.id ps.touched) student.id items it.question_id]
      rw [show (recalcMarksService { st with responses := rows2 }
        student.id ps.touched).responses = rows2 from rfl]
      rw [hrows2, List.filter_append]
    have hlk0 : ∀ k, emapLookup (initialEmap st student.id items) k =
        lastResp (st.responses.filter (fun r => r.student_id == student.id &&
          (questionIds items).contains r.question_id)) k :=
      fun k => emapLookup_initialEmap st student.id items k
    rcases hitems it hit with ⟨r, hl, hro⟩ | ⟨hlnone, cr, hcrm, hcrq, hcro⟩
    · cases hlc : lastResp (ps.creates.filter (fun r => r.student_id == student.id &&
          (questionIds items).contains r.question_id)) it.question_id with
      | some c2 =>
        exfalso
        obtain ⟨hc2m, hc2q⟩ := lastResp_mem hlc
        have hc2cr : c2 ∈ ps.creates := (List.mem_filter.mp hc2m).1
        have hnone := hcreates c2 hc2cr
        rw [hc2q] at hnone
        rw [hlk0] at hl hnone
        rw [hnone] at hl
        exact Option.noConfusion hl
      | none =>
        refine ⟨r, ?_, hro⟩
        rw [hlkT, lastResp_append, hlc]
        rw [hlk0] at hl
        exact hl
    · have hpcr : (cr.student_id == student.id &&
          (questionIds items).contains cr.question_id) = true := by
        rw [hcstu cr hcrm, hcrq]
        simpa using mem_questionIds hit
      have hcrf : cr ∈ ps.creates.filter (fun r => r.student_id == student.id &&
          (questionIds items).contains r.question_id) := List.mem_filter.mpr ⟨hcrm, hpcr⟩
      cases hlc : lastResp (ps.creates.filter (fun r => r.student_id == student.id &&
          (questionIds items).contains r.question_id)) it.question_id with
      | none =>
        exfalso
        exact absurd hcrq (lastResp_eq_none_iff.mp hlc cr hcrf)
      | some c2 =>
        obtain ⟨hc2m, hc2q⟩ := lastResp_mem hlc
        have hc2cr : c2 ∈ ps.creates := (List.mem_filter.mp hc2m).1
        have hceq : c2 = cr := pairwise_key_unique ps.creates hpw c2 cr hc2cr hcrm
          (by rw [hcstu c2 hc2cr, hcstu cr hcrm]) (by rw [hc2q, hcrq])
        refine ⟨c2, ?_, ?_⟩
        · rw [hlkT, lastResp_append, hlc]
        · rw [hceq, hcro]
  obtain ⟨ps₂, hpi2, hcr2, hup2, hem2⟩ := @processItems_noop_run
    st₁ college.id student now2 items
    { creates := [], updates := [], touched := [],
      emap := initialEmap st₁ student.id items } hall
  have hrun : process_submission st₁ cn sid items now2 =
      (.ok 0 0, recalcMarksService { st₁ with responses := st₁.responses }
        student.id ps₂.touched) := by
    simp only [process_submission, hc1, hs1]
    rw [if_neg (by simp [hmq1, hmo1])]
    simp only [hpi2]
    rw [hup2, hcr2]
    rfl
  exact ⟨recalcMarksService { st₁ with responses := st₁.responses } student.id ps₂.touched,
    hrun, rfl⟩

/-- C2 witness: on the concrete store where question 1 is already answered
with option 1, submitting [(1, option 1)] yields (0, 0); the immediate
resubmission again yields (0, 0) and leaves the response table unchanged. -/
theorem C2_identical_resubmission_noop_witness :
    ∃ st₂, process_submission (process_submission storeB "test u" "S-1" [⟨1, 1⟩] 7).2
        "test u" "S-1" [⟨1, 1⟩] 8 = (.ok 0 0, st₂) ∧
      st₂.responses = (process_submission storeB "test u" "S-1" [⟨1, 1⟩] 7).2.responses :=
  C2_identical_resubmission_noop storeB "test u" "S-1" [⟨1, 1⟩] 7 8 0
    (process_submission storeB "test u" "S-1" [⟨1, 1⟩] 7).2 (by decide)

/-- Objective entries of a cons of category groups. -/
theorem allObjective_cons (g : CategoryGroup) (rest : List CategoryGroup) :
    allObjective (g :: rest) = g.objective ++ allObjective rest := by
  simp [allObjective]

/-- Subjective keys of a cons of category groups. -/
theorem allSubjKeys_cons (g : CategoryGroup) (rest : List CategoryGroup) :
    allSubjKeys (g :: rest) =
      g.subjective.map (fun e => (g.category, e.section_name)) ++ allSubjKeys rest := by
  simp [allSubjKeys]

/-- Appending one objective entry to the grouped structure adds exactly that
entry to the flattened objective list, up to position. -/
theorem allObjective_addObjective (acc : List CategoryGroup) (cat : String) (e : ObjectiveEntry) :
    List.Perm (allObjective (addObjective acc cat e)) (e :: allObjective acc) := by
  induction acc with
  | nil =>
    rw [addObjective, allObjective_cons]
    exact List.Perm.refl _
  | cons g rest ih =>
    by_cases hcat : g.category = cat
    · rw [addObjective, if_pos hcat, allObjective_cons, allObjective_cons]
      exact List.Perm.append_right (allObjective rest)
        (List.perm_append_singleton e g.objective)
    · rw [addObjective, if_neg hcat, allObjective_cons, allObjective_cons]
      exact (List.Perm.append_left g.objective ih).trans List.perm_middle

/-- Appending an objective entry leaves the subjective keys unchanged. -/
theorem allSubjKeys_addObjective (acc : List CategoryGroup) (cat : String) (e : ObjectiveEntry) :
    allSubjKeys (addObjective acc cat e) = allSubjKeys acc := by
  induction acc with
  | nil => rw [addObjective, allSubjKeys_cons]; rfl
  | cons g rest ih =>
    by_cases hcat : g.category = cat
    · rw [addObjective, if_pos hcat, allSubjKeys_cons, allSubjKeys_cons]
    · rw [addObjective, if_neg hcat, allSubjKeys_cons, allSubjKeys_cons, ih]

/-- Appending a subjective entry leaves the objective entries unchanged. -/
theorem allObjective_addSubjective (acc : List CategoryGroup) (cat : String)
    (e : SubjectiveEntry) :
    allObjective (addSubjective acc cat e) = allObjective acc := by
  induction acc with
  | nil => rw [addSubjective, allObjective_cons]; rfl
  | cons g rest ih =>
    by_cases hcat : g.category = cat
    · rw [addSubjective, if_pos hcat, allObjective_cons, allObjective_cons]
    · rw [addSubjective, if_neg hcat, allObjective_cons, allObjective_cons, ih]

/-- Appending one subjective entry adds exactly its (category, section) key to
the flattened key list, up to position. -/
theorem allSubjKeys_addSubjective (acc : List CategoryGroup) (cat : String)
    (e : SubjectiveEntry) :
    List.Perm (allSubjKeys (addSubjective acc cat e))
      ((cat, e.section_name) :: allSubjKeys acc) := by
  induction acc with
  | nil =>
    rw [addSubjective, allSubjKeys_cons]
    exact List.Perm.refl _
  | cons g rest ih =>
    by_cases hcat : g.category = cat
    · rw [addSubjective, if_pos hcat, allSubjKeys_cons, allSubjKeys_cons]
      simp only [List.map_append, List.map_cons, List.map_nil]
      rw [hcat]
      exact List.Perm.append_right (allSubjKeys rest)
        (List.perm_append_singleton (cat, e.section_name) _)
    · rw [addSubjective, if_neg hcat, allSubjKeys_cons, allSubjKeys_cons]
      exact (List.Perm.append_left _ ih).trans List.perm_middle

/-- The fold of the marks loop contributes exactly one objective entry per row. -/
theorem allObjective_foldl_addObj {α : Type} (kf : α → String) (ef : α → ObjectiveEntry) :
    ∀ (rows : List α) (acc : List CategoryGroup),
      List.Perm (allObjective (rows.foldl (fun acc r => addObjective acc (kf r) (ef r)) acc))
        (rows.map ef ++ allObjective acc) := by
  intro rows
  induction rows with
  | nil =>
    intro acc
    rw [List.foldl_nil, List.map_nil, List.nil_append]
  | cons r rows ih =>
    intro acc
    rw [List.foldl_cons, List.map_cons]
    have h1 := ih (addObjective acc (kf r) (ef r))
    have h2 : List.Perm (List.map ef rows ++ allObjective (addObjective acc (kf r) (ef r)))
        (List.map ef rows ++ (ef r :: allObjective acc)) :=
      List.Perm.append_left _ (allObjective_addObjective acc (kf r) (ef r))
    exact (h1.trans h2).trans List.perm_middle

/-- The subjective-groups fold never changes the objective entries. -/
theorem allObjective_foldl_addSubj {α : Type} (kf : α → String) (ef : α → SubjectiveEntry) :
    ∀ (rows : List α) (acc : List CategoryGroup),
      allObjective (rows.foldl (fun acc r => addSubjective acc (kf r) (ef r)) acc) =
        allObjective acc := by
  intro rows
  induction rows with
  | nil => intro acc; rfl
  | cons r rows ih =>
    intro acc
    rw [List.foldl_cons, ih, allObjective_addSubjective]

/-- The marks fold never changes the subjective keys. -/
theorem allSubjKeys_foldl_addObj {α : Type} (kf : α → String) (ef : α → ObjectiveEntry) :
    ∀ (rows : List α) (acc : List CategoryGroup),
      allSubjKeys (rows.foldl (fun acc r => addObjective acc (kf r) (ef r)) acc) =
        allSubjKeys acc := by
  intro rows
  induction rows with
  | nil => intro acc; rfl
  | cons r rows ih =>
    intro acc
    rw [List.foldl_cons, ih, allSubjKeys_addObjective]

/-- The subjective fold contributes exactly one key per grouped element. -/
theorem allSubjKeys_foldl_addSubj {α : Type} (kf : α → String) (ef : α → SubjectiveEntry) :
    ∀ (rows : List α) (acc : List CategoryGroup),
      List.Perm (allSubjKeys (rows.foldl (fun acc r => addSubjective acc (kf r) (ef r)) acc))
        (rows.map (fun r => (kf r, (ef r).section_name)) ++ allSubjKeys acc) := by
  intro rows
  induction rows with
  | nil =>
    intro acc
    rw [List.foldl_nil, List.map_nil, List.nil_append]
  | cons r rows ih =>
    intro acc
    rw [List.foldl_cons, List.map_cons]
    have h1 := ih (addSubjective acc (kf r) (ef r))
    have h2 : List.Perm
        (List.map (fun r => (kf r, (ef r).section_name)) rows ++
          allSubjKeys (addSubjective acc (kf r) (ef r)))
        (List.map (fun r => (kf r, (ef r).section_name)) rows ++
          ((kf r, (ef r).section_name) :: allSubjKeys acc)) :=
      List.Perm.append_left _ (allSubjKeys_addSubjective acc (kf r) (ef r))
    exact (h1.trans h2).trans List.perm_middle

/-- addObjective never creates an empty group. -/
theorem nonempty_addObjective (acc : List CategoryGroup) (cat : String) (e : ObjectiveEntry)
    (h : ∀ g ∈ acc, g.objective ≠ [] ∨ g.subjective ≠ []) :
    ∀ g ∈ addObjective acc cat e, g.objective ≠ [] ∨ g.subjective ≠ [] := by
  induction acc with
  | nil =>
    intro g hg
    rw [addObjective] at hg
    have hgeq : g = _ := List.mem_singleton.mp hg
    subst hgeq
    exact Or.inl (by simp)
  | cons g0 rest ih =>
    intro g hg
    by_cases hcat : g0.category = cat
    · rw [addObjective, if_pos hcat, List.mem_cons] at hg
      rcases hg with rfl | hg
      · exact Or.inl (by simp)
      · exact h g (List.mem_cons_of_mem g0 hg)
    · rw [addObjective, if_neg hcat, List.mem_cons] at hg
      rcases hg with rfl | hg
      · exact h g (List.mem_cons_self g rest)
      · exact ih (fun g2 hg2 => h g2 (List.mem_cons_of_mem g0 hg2)) g hg

/-- addSubjective never creates an empty group. -/
theorem nonempty_addSubjective (acc : List CategoryGroup) (cat : String) (e : SubjectiveEntry)
    (h : ∀ g ∈ acc, g.objective ≠ [] ∨ g.subjective ≠ []) :
    ∀ g ∈ addSubjective acc cat e, g.objective ≠ [] ∨ g.subjective ≠ [] := by
  induction acc with
  | nil =>
    intro g hg
    rw [addSubjective] at hg
    have hgeq : g = _ := List.mem_singleton.mp hg
    subst hgeq
    exact Or.inr (by simp)
  | cons g0 rest ih =>
    intro g hg
    by_cases hcat : g0.category = cat
    · rw [addSubjective, if_pos hcat, List.mem_cons] at hg
      rcases hg with rfl | hg
      · exact Or.inr (by simp)
      · exact h g (List.mem_cons_of_mem g0 hg)
    · rw [addSubjective, if_neg hcat, List.mem_cons] at hg
      rcases hg with rfl | hg
      · exact h g (List.mem_cons_self g rest)
      · exact ih (fun g2 hg2 => h g2 (List.mem_cons_of_mem g0 hg2)) g hg

/-- Folding the marks loop preserves the no-empty-group invariant. -/
theorem nonempty_foldl_addObj {α : Type} (kf : α → String) (ef : α → ObjectiveEntry) :
    ∀ (rows : List α) (acc : List CategoryGroup),
      (∀ g ∈ acc, g.objective ≠ [] ∨ g.subjective ≠ []) →
      ∀ g ∈ rows.foldl (fun acc r => addObjective acc (kf r) (ef r)) acc,
        g.objective ≠ [] ∨ g.subjective ≠ [] := by
  intro rows
  induction rows with
  | nil => intro acc h; exact h
  | cons r rows ih =>
    intro acc h
    rw [List.foldl_cons]
    exact ih _ (nonempty_addObjective acc (kf r) (ef r) h)

/-- Folding the subjective loop preserves the no-empty-group invariant. -/
theorem nonempty_foldl_addSubj {α : Type} (kf : α → String) (ef : α → SubjectiveEntry) :
    ∀ (rows : List α) (acc : List CategoryGroup),
      (∀ g ∈ acc, g.objective ≠ [] ∨ g.subjective ≠ []) →
      ∀ g ∈ rows.foldl (fun acc r => addSubjective acc (kf r) (ef r)) acc,
        g.objective ≠ [] ∨ g.subjective ≠ [] := by
  intro rows
  induction rows with
  | nil => intro acc h; exact h
  | cons r rows ih =>
    intro acc h
    rw [List.foldl_cons]
    exact ih _ (nonempty_addSubjective acc (kf r) (ef r) h)

/-- Appending an item to the (category, section) grouping adds its key exactly
when the key was not yet present. -/
theorem groupAppend_keys (acc : List ((String × String) × List SubjectiveItem))
    (k : String × String) (it : SubjectiveItem) :
    (groupAppend acc k it).map (fun p => p.1) =
      if k ∈ acc.map (fun p => p.1) then acc.map (fun p => p.1)
      else acc.map (fun p => p.1) ++ [k] := by
  induction acc with
  | nil => simp [groupAppend]
  | cons p rest ih =>
    by_cases hk : p.1 = k
    · simp [groupAppend, hk]
    · rw [groupAppend, if_neg hk]
      simp only [List.map_cons, ih]
      by_cases hmem : k ∈ rest.map (fun p => p.1)
      · rw [if_pos hmem, if_pos (List.mem_cons_of_mem _ hmem)]
      · have hnot : ¬ k ∈ (p.1 :: rest.map (fun p => p.1)) := by
          rw [List.mem_cons]
          rintro (hh | hh)
          · exact hk hh.symm
          · exact hmem hh
        rw [if_neg hmem, if_neg hnot]
        rfl

/-- The grouped subjective keys are pairwise distinct. -/
theorem buildSubjGroups_keys_nodup_aux (st : Store) :
    ∀ (rows : List StudentResponse) (acc : List ((String × String) × List SubjectiveItem)),
      (acc.map (fun p => p.1)).Nodup →
      ((rows.foldl (fun acc r => groupAppend acc (subjPairOf st r) (subjItemOf st r)) acc).map
        (fun p => p.1)).Nodup := by
  intro rows
  induction rows with
  | nil => intro acc h; exact h
  | cons r rows ih =>
    intro acc h
    rw [List.foldl_cons]
    apply ih
    rw [groupAppend_keys]
    by_cases hmem : subjPairOf st r ∈ acc.map (fun p => p.1)
    · rw [if_pos hmem]; exact h
    · rw [if_neg hmem, List.nodup_append]
      refine ⟨h, List.nodup_singleton _, ?_⟩
      intro a ha hb
      rw [List.mem_singleton] at hb
      subst hb
      exact hmem ha

/-- The grouped subjective keys are exactly the keys of the grouped rows. -/
theorem buildSubjGroups_keys_mem_aux (st : Store) :
    ∀ (rows : List StudentResponse) (acc : List ((String × String) × List SubjectiveItem))
      (p : String × String),
      p ∈ (rows.foldl (fun acc r => groupAppend acc (subjPairOf st r) (subjItemOf st r)) acc).map
          (fun p => p.1) ↔
        p ∈ acc.map (fun p => p.1) ∨ ∃ r ∈ rows, subjPairOf st r = p := by
  intro rows
  induction rows with
  | nil =>
    intro acc p
    simp
  | cons r rows ih =>
    intro acc p
    rw [List.foldl_cons, ih]
    have hga : p ∈ (groupAppend acc (subjPairOf st r) (subjItemOf st r)).map (fun p => p.1) ↔
        p ∈ acc.map (fun p => p.1) ∨ p = subjPairOf st r := by
      rw [groupAppend_keys]
      by_cases hmem : subjPairOf st r ∈ acc.map (fun p => p.1)
      · rw [if_pos hmem]
        constructor
        · exact Or.inl
        · rintro (hh | rfl)
          · exact hh
          · exact hmem
      · rw [if_neg hmem]
        simp [List.mem_append]
    rw [hga]
    constructor
    · rintro ((hh | rfl) | ⟨r2, hr2m, hp2⟩)
      · exact Or.inl hh
      · exact Or.inr ⟨r, List.mem_cons_self r rows, rfl⟩
      · exact Or.inr ⟨r2, List.mem_cons_of_mem r hr2m, hp2⟩
    · rintro (hh | ⟨r2, hr2m, hp2⟩)
      · exact Or.inl (Or.inl hh)
      · rw [List.mem_cons] at hr2m
        rcases hr2m with rfl | hr2m
        · exact Or.inl (Or.inr hp2.symm)
        · exact Or.inr ⟨r2, hr2m, hp2⟩

/-- C9: the results payload for a resolved student holds exactly one scored
entry per stored StudentSectionResult row (reporting the section's name, its
question count and the stored score), exactly one subjective entry per
(category, section) pair with at least one subjective response of the student,
and no category group without entries. -/
theorem C9_results_assembly (st : Store) (cn sid : String) (payload : ResultsPayload)
    (college : College) (student : Student)
    (hc : resolveCollege st cn = some college)
    (hs : resolveStudent st college sid = some student)
    (h : get_student_results st cn sid = some payload) :
    payload.student_name = student.name ∧
    payload.student_id = student.student_id ∧
    List.Perm (allObjective payload.results)
      ((st.sectionResults.filter (fun r => r.student_id == student.id)).map
        (objectiveEntryOf st)) ∧
    (allSubjKeys payload.results).Nodup ∧
    (∀ p, p ∈ allSubjKeys payload.results ↔
      ∃ r ∈ subjRows st student.id, subjPairOf st r = p) ∧
    (∀ g ∈ payload.results, g.objective ≠ [] ∨ g.subjective ≠ []) := by
  simp only [get_student_results, hc, hs] at h
  obtain rfl := Option.some.inj h
  refine ⟨rfl, rfl, ?_, ?_, ?_, ?_⟩
  · dsimp only
    rw [allObjective_foldl_addSubj (fun (p : (String × String) × List SubjectiveItem) => p.1.1)
      (fun (p : (String × String) × List SubjectiveItem) =>
        ({ section_name := p.1.2, responses := p.2 } : SubjectiveEntry))]
    have h1 := allObjective_foldl_addObj (fun r => categoryNameOfSection st r.section_id)
      (objectiveEntryOf st) (marksRows st student.id) []
    rw [show allObjective ([] : List CategoryGroup) = [] from rfl, List.append_nil] at h1
    exact h1
  · dsimp only
    have h1 := allSubjKeys_foldl_addSubj
      (fun (p : (String × String) × List SubjectiveItem) => p.1.1)
      (fun (p : (String × String) × List SubjectiveItem) =>
        ({ section_name := p.1.2, responses := p.2 } : SubjectiveEntry))
      (buildSubjGroups st (subjRows st student.id))
      ((marksRows st student.id).foldl (fun acc r =>
        addObjective acc (categoryNameOfSection st r.section_id) (objectiveEntryOf st r)) [])
    rw [allSubjKeys_foldl_addObj (fun r => categoryNameOfSection st r.section_id)
      (objectiveEntryOf st), show allSubjKeys ([] : List CategoryGroup) = [] from rfl,
      List.append_nil] at h1
    rw [h1.nodup_iff]
    have h2 : (buildSubjGroups st (subjRows st student.id)).map
        (fun (p : (String × String) × List SubjectiveItem) => (p.1.1, p.1.2)) =
        (buildSubjGroups st (subjRows st student.id)).map (fun p => p.1) := by
      apply List.map_congr_left
      intro p _
      rfl
    rw [h2]
    exact buildSubjGroups_keys_nodup_aux st (subjRows st student.id) [] List.nodup_nil
  · intro p
    dsimp only
    have h1 := allSubjKeys_foldl_addSubj
      (fun (p : (String × String) × List SubjectiveItem) => p.1.1)
      (fun (p : (String × String) × List SubjectiveItem) =>
        ({ section_name := p.1.2, responses := p.2 } : SubjectiveEntry))
      (buildSubjGroups st (subjRows st student.id))
      ((marksRows st student.id).foldl (fun acc r =>
        addObjective acc (categoryNameOfSection st r.section_id) (objectiveEntryOf st r)) [])
    rw [allSubjKeys_foldl_addObj (fun r => categoryNameOfSection st r.section_id)
      (objectiveEntryOf st), show allSubjKeys ([] : List CategoryGroup) = [] from rfl,
      List.append_nil] at h1
    rw [h1.mem_iff]
    have h2 : (buildSubjGroups st (subjRows st student.id)).map
        (fun (p : (String × String) × List SubjectiveItem) => (p.1.1, p.1.2)) =
        (buildSubjGroups st (subjRows st student.id)).map (fun p => p.1) := by
      apply List.map_congr_left
      intro p2 _
      rfl
    rw [h2]
    have h4 : p ∈ (buildSubjGroups st (subjRows st student.id)).map (fun p => p.1) ↔
        (p ∈ ([] : List ((String × String) × List SubjectiveItem)).map (fun p => p.1) ∨
          ∃ r ∈ subjRows st student.id, subjPairOf st r = p) :=
      buildSubjGroups_keys_mem_aux st (subjRows st student.id) [] p
    rw [h4]
    simp
  · dsimp only
    apply nonempty_foldl_addSubj
    apply nonempty_foldl_addObj
    intro g hg
    exact absurd hg (List.not_mem_nil g)

/-- C9 witness: on the concrete store with one stored mark row and one
subjective response, the payload satisfies all three assembly properties. -/
theorem C9_results_assembly_witness :
    (payloadD.student_name = "Alice" ∧
      payloadD.student_id = "S-1" ∧
      List.Perm (allObjective payloadD.results)
        ((storeD.sectionResults.filter (fun r => r.student_id == 1)).map
          (objectiveEntryOf storeD)) ∧
      (allSubjKeys payloadD.results).Nodup ∧
      (∀ p, p ∈ allSubjKeys payloadD.results ↔
        ∃ r ∈ subjRows storeD 1, subjPairOf storeD r = p) ∧
      (∀ g ∈ payloadD.results, g.objective ≠ [] ∨ g.subjective ≠ [])) :=
  C9_results_assembly storeD "test u" "S-1" payloadD
    ⟨1, "Test U"⟩ ⟨1, 1, "S-1", "Alice"⟩ (by decide) (by decide) (by decide)

end Survey
